import Mathlib

/-!
Verification of the historical-reconstruction and insight-derivation engine of
the BlackRoom wagering-analytics repository.

The TypeScript source is shallowly embedded over exact rational arithmetic
(`ℚ` models the JS number type; decimal literals such as `0.2` are exact in
`ℚ`).  Timestamps are seconds since the epoch as integers; the JS idiom
`new Date(t).toISOString().slice(0, 16)` (truncation to the minute) is modelled
by floor division `t / 60`, which agrees with it for the non-negative
timestamps the system handles.  JS `Record<string, number>` objects are
modelled as association lists with unique keys in insertion order, and the
defaulting read `m[k] || 0` by a lookup that returns `0` when the key is
absent.  `+x.toFixed(2)` is rounding to the nearest multiple of `1/100`.
-/

namespace BlackRoom

/-! ## Data model (mirrors the row shapes read from the store) -/

structure Bet where
  event_id : String
  option_id : String
  amount : ℚ
  placed_at : ℤ
  user_id : String
  status : String
deriving DecidableEq

structure OptionRow where
  id : String
  event_id : String
  label : String
  total_bets : ℚ
  bettors : ℕ
deriving DecidableEq

structure EventRow where
  id : String
  total_pool : ℚ
  participant_count : ℕ
deriving DecidableEq

/-- One reconstructed historical snapshot (`AnalyticsDataPoint`).  Fields that
the minute-bucketed variant does not populate (`momentum`) are the empty map,
matching the optional fields of the TS interface. -/
structure DataPoint where
  timestamp : ℤ
  percentages : List (String × ℚ)
  totalPool : ℚ
  participantCount : ℕ
  totalBets : List (String × ℚ)
  bettingVelocity : ℚ
  momentum : List (String × ℚ)
deriving DecidableEq

instance : Inhabited DataPoint := ⟨⟨0, [], 0, 0, [], 0, []⟩⟩

/-! ## Association-list helpers for JS `Record<string, number>` objects -/

/-- `m[k] || 0`: value of key `k`, defaulting to `0` when absent. -/
def lookupQ (m : List (String × ℚ)) (k : String) : ℚ :=
  (Option.map Prod.snd (m.find? (fun p => p.1 = k))).getD 0

/-- `k in m`. -/
def hasKey (m : List (String × ℚ)) (k : String) : Bool :=
  m.any (fun p => p.1 = k)

/-- `Object.values(m).reduce((s, v) => s + v, 0)`. -/
def valuesSum (m : List (String × ℚ)) : ℚ :=
  (m.map Prod.snd).sum

/-- `m[k] = (m[k] || 0) + a`: update in place if the key exists, otherwise
append it (JS objects keep insertion order). -/
def updateAdd (m : List (String × ℚ)) (k : String) (a : ℚ) : List (String × ℚ) :=
  if hasKey m k then
    m.map (fun p => if p.1 = k then (p.1, p.2 + a) else p)
  else m ++ [(k, a)]

/-- Fold a list of `(key, amount)` pairs into an accumulator object with
`updateAdd`. -/
def accumPairs (c0 : List (String × ℚ)) (l : List (String × ℚ)) : List (String × ℚ) :=
  l.foldl (fun c p => updateAdd c p.1 p.2) c0

/-- `+x.toFixed(2)`: round to the nearest multiple of `1/100`. -/
def round2 (x : ℚ) : ℚ :=
  (round (x * 100) : ℚ) / 100

/-- `historicalData[i]` (all source reads are in bounds). -/
def dget (l : List DataPoint) (i : ℕ) : DataPoint :=
  l.getD i default

/-! ## Time Bucketer, minute-bucketed variant
(`generateOptimizedHistoricalData` in `analyticsService.ts`) -/

/-- `new Date(placed_at).toISOString().slice(0, 16)`: the minute bucket key. -/
def minuteKey (t : ℤ) : ℤ := t / 60

/-- `Object.keys(timeMap).sort()`: the distinct minute keys in chronological
order. -/
def minuteKeys (bets : List Bet) : List ℤ :=
  List.insertionSort (· ≤ ·) ((bets.map (fun b => minuteKey b.placed_at)).dedup)

/-- The `(option_id, amount)` pairs of the bets that fall in minute `k`. -/
def bucketPairs (bets : List Bet) (k : ℤ) : List (String × ℚ) :=
  (bets.filter (fun b => minuteKey b.placed_at = k)).map (fun b => (b.option_id, b.amount))

/-- `timeMap[k]`: per-option increments of minute bucket `k`. -/
def bucketIncs (bets : List Bet) (k : ℤ) : List (String × ℚ) :=
  accumPairs [] (bucketPairs bets k)

/-! ## Cumulative Aggregator, minute-bucketed variant -/

/-- Percentages computed from the cumulative totals:
`total > 0 ? +(cum[o] / total * 100).toFixed(2) : 0`. -/
def mkPercentages (cum : List (String × ℚ)) (total : ℚ) : List (String × ℚ) :=
  cum.map (fun p => (p.1, if 0 < total then round2 (p.2 / total * 100) else 0))

/-- Ensure all options have a percentage (even if 0). -/
def fillMissing (per : List (String × ℚ)) (optionIds : List String) : List (String × ℚ) :=
  per ++ (optionIds.filter (fun o => ! hasKey per o)).map (fun o => (o, 0))

/-- The `DataPoint` pushed for one minute bucket.  `storePool`/`storeParts`
are the event row re-read inside the loop; `total_pool || total` falls back to
the cumulative total when the stored pool is `0` (JS falsiness).  The source
pushes `totalBets: cumulativeData` as a reference to the mutable accumulator;
the embedding gives the field value semantics — the accumulator's contents at
push time, which is exactly the state this bucket's percentages are computed
from. -/
def bucketPoint (cum : List (String × ℚ)) (optionIds : List String)
    (storePool : ℚ) (storeParts : ℕ) (k : ℤ) : DataPoint :=
  let total := valuesSum cum
  { timestamp := k * 60
    percentages := fillMissing (mkPercentages cum total) optionIds
    totalPool := if storePool = 0 then total else storePool
    participantCount := storeParts
    totalBets := cum
    bettingVelocity := 0
    momentum := [] }

/-- The aggregation loop of `generateOptimizedHistoricalData`, walking the
sorted minute keys while maintaining `cumulativeData`. -/
def genOptimizedAux (bets : List Bet) (optionIds : List String)
    (storePool : ℚ) (storeParts : ℕ) :
    List ℤ → List (String × ℚ) → List DataPoint
  | [], _ => []
  | k :: ks, cum =>
    let cum2 := accumPairs cum (bucketIncs bets k)
    bucketPoint cum2 optionIds storePool storeParts k ::
      genOptimizedAux bets optionIds storePool storeParts ks cum2

/-- `generateOptimizedHistoricalData` (historicalData component). -/
def generateOptimizedHistoricalData (bets : List Bet) (optionIds : List String)
    (storePool : ℚ) (storeParts : ℕ) : List DataPoint :=
  genOptimizedAux bets optionIds storePool storeParts (minuteKeys bets) []

/-! ## Server-side edge variant (`get_event_analytics.ts`)
Each bucket's percentages are computed from `poolPerOption = timeMap[time]`
alone — there is no cumulative accumulator in this variant. -/

/-- Percentages of one edge-function bucket:
`+(poolPerOption[o] / total * 100).toFixed(2)` where `total` is the bucket's
own sum. -/
def edgeBucketPercentages (bets : List Bet) (k : ℤ) : List (String × ℚ) :=
  let per := bucketIncs bets k
  per.map (fun p => (p.1, round2 (p.2 / valuesSum per * 100)))

/-- The edge function's `historicalData`. -/
def edgeHistoricalData (bets : List Bet) (storePool : ℚ) (storeParts : ℕ) :
    List DataPoint :=
  (minuteKeys bets).map (fun k =>
    { timestamp := k * 60
      percentages := edgeBucketPercentages bets k
      totalPool := storePool
      participantCount := storeParts
      totalBets := []
      bettingVelocity := 0
      momentum := [] })

/-! ## Smoother (`smoothDataPoints`) -/

/-- The smoothed interior point: percentages and momentum are replaced by the
`0.2 / 0.6 / 0.2` weighted average over the keys of the current point's
percentages; `timestamp`, `totalPool` and `bettingVelocity` are copied from
the current point. -/
def smoothPoint (prev cur next : DataPoint) : DataPoint :=
  { timestamp := cur.timestamp
    percentages := cur.percentages.map (fun p =>
      (p.1, lookupQ prev.percentages p.1 * 0.2 + lookupQ cur.percentages p.1 * 0.6 +
        lookupQ next.percentages p.1 * 0.2))
    totalPool := cur.totalPool
    participantCount := cur.participantCount
    totalBets := cur.totalBets
    bettingVelocity := cur.bettingVelocity
    momentum := cur.percentages.map (fun p =>
      (p.1, lookupQ prev.momentum p.1 * 0.2 + lookupQ cur.momentum p.1 * 0.6 +
        lookupQ next.momentum p.1 * 0.2)) }

/-- `smoothDataPoints`: identity below length 3; otherwise first and last are
pushed unchanged and interior points are smoothed. -/
def smoothDataPoints (dataPoints : List DataPoint) : List DataPoint :=
  if dataPoints.length < 3 then dataPoints
  else
    (List.range dataPoints.length).map (fun i =>
      if i = 0 ∨ i = dataPoints.length - 1 then dget dataPoints i
      else smoothPoint (dget dataPoints (i - 1)) (dget dataPoints i) (dget dataPoints (i + 1)))

/-! ## Hour-bucketed rolling-window variant (`generateRealHistoricalData`) -/

/-- `100 / options.length`. -/
def equalShare (n : ℕ) : ℚ := 100 / n

/-- `hourEnd = new Date(now.getTime() - i * 60 * 60 * 1000)` in seconds. -/
def hourEnd (now : ℤ) (i : ℕ) : ℤ := now - i * 3600

/-- `hourStart = new Date(now.getTime() - (i + 1) * 60 * 60 * 1000)`. -/
def hourStart (now : ℤ) (i : ℕ) : ℤ := now - (i + 1) * 3600

/-- `allBets.filter(bet => new Date(bet.placed_at) <= hourEnd)`. -/
def betsUpTo (bets : List Bet) (t : ℤ) : List Bet :=
  bets.filter (fun b => b.placed_at ≤ t)

/-- Bets placed strictly inside `(s, t]`. -/
def betsIn (bets : List Bet) (s t : ℤ) : List Bet :=
  bets.filter (fun b => s < b.placed_at ∧ b.placed_at ≤ t)

/-- `optionTotals` accumulated from the bets seen so far. -/
def optionTotals (l : List Bet) : List (String × ℚ) :=
  accumPairs [] (l.map (fun b => (b.option_id, b.amount)))

/-- `totalAmount` accumulated from the bets seen so far. -/
def totalAmountOf (l : List Bet) : ℚ :=
  (l.map (fun b => b.amount)).sum

/-- The rolling-window `DataPoint` for offset `i` hours before `now`,
given the previously pushed point (for the momentum delta). -/
def hourPoint (bets : List Bet) (opts : List String) (now : ℤ) (i : ℕ)
    (prevPoint : Option DataPoint) : DataPoint :=
  let bUp := betsUpTo bets (hourEnd now i)
  let bIn := betsIn bets (hourStart now i) (hourEnd now i)
  if bUp.isEmpty then
    { timestamp := hourEnd now i
      percentages := opts.map (fun o => (o, equalShare opts.length))
      totalPool := 0
      participantCount := 0
      totalBets := []
      bettingVelocity := 0
      momentum := opts.map (fun o => (o, 0)) }
  else
    let tot := optionTotals bUp
    let totalAmt := totalAmountOf bUp
    let per := opts.map (fun o =>
      (o, if 0 < totalAmt then lookupQ tot o / totalAmt * 100 else equalShare opts.length))
    let mom := match prevPoint with
      | some prev => opts.map (fun o => (o, lookupQ per o - lookupQ prev.percentages o))
      | none => opts.map (fun o => (o, 0))
    { timestamp := hourEnd now i
      percentages := per
      totalPool := totalAmt
      participantCount := 0
      totalBets := []
      bettingVelocity := (bIn.length : ℚ)
      momentum := mom }

/-- The `for (let i = totalHours - 1; i >= 0; i--)` loop: offsets are walked
from 23 down to 0, threading the previously pushed point. -/
def rawHourlyAux (bets : List Bet) (opts : List String) (now : ℤ) :
    List ℕ → Option DataPoint → List DataPoint
  | [], _ => []
  | i :: is, prev =>
    let p := hourPoint bets opts now i prev
    p :: rawHourlyAux bets opts now is (some p)

/-- The 24 hourly points before smoothing. -/
def rawHourly (bets : List Bet) (opts : List String) (now : ℤ) : List DataPoint :=
  rawHourlyAux bets opts now (List.range 24).reverse none

/-- `generateEmptyHistoricalData`: 24 equal-share points when no bets exist. -/
def generateEmptyHistoricalData (opts : List String) (now : ℤ) : List DataPoint :=
  (List.range 24).reverse.map (fun i =>
    { timestamp := now - i * 3600
      percentages := opts.map (fun o => (o, equalShare opts.length))
      totalPool := 0
      participantCount := 0
      totalBets := []
      bettingVelocity := 0
      momentum := opts.map (fun o => (o, 0)) })

/-- `generateRealHistoricalData` (success path): hourly cumulative points,
then smoothing; the empty-ledger early return is unsmoothed. -/
def generateRealHistoricalData (bets : List Bet) (opts : List String) (now : ℤ) :
    List DataPoint :=
  if bets.isEmpty then generateEmptyHistoricalData opts now
  else smoothDataPoints (rawHourly bets opts now)

/-! ## Insight Extractor, minute-bucketed variant
(`calculateEnhancedInsights`) -/

inductive Trend where
  | Rising
  | Falling
  | Stable
deriving DecidableEq

inductive VolLevel where
  | Low
  | Medium
  | High
deriving DecidableEq

structure InsightsMinute where
  leadingOption : String
  volatility : VolLevel
  trend : Trend
  peakBettingHour : ℕ
  averageVelocity : ℚ
  volatilityScore : ℚ
  trendingOption : String
  lastMajorShift : Option ℤ

/-- `new Date(t).getHours()` (modelled in UTC): hour of day 0–23. -/
def hourOfDay (t : ℤ) : ℤ := (t / 3600) % 24

/-- `options.reduce((prev, current) => current.total_bets > prev.total_bets ?
current : prev)`. -/
def leadingOptionRow (o0 : OptionRow) (rest : List OptionRow) : OptionRow :=
  rest.foldl (fun p c => if p.total_bets < c.total_bets then c else p) o0

/-- The |percentage delta| of option `lid` between consecutive points. -/
def diffsFor (data : List DataPoint) (lid : String) : List ℚ :=
  (List.range (data.length - 1)).map (fun j =>
    |lookupQ (dget data (j + 1)).percentages lid - lookupQ (dget data j).percentages lid|)

/-- The trend branch of `calculateEnhancedInsights`: only computed when more
than 2 points exist (`slice(-3)`), otherwise `Stable`. -/
def trendMinute (lid : String) (data : List DataPoint) : Trend :=
  if 2 < data.length then
    let recent := data.drop (data.length - 3)
    let firstPercentage := lookupQ (dget recent 0).percentages lid
    let lastPercentage := lookupQ (dget recent (recent.length - 1)).percentages lid
    let change := lastPercentage - firstPercentage
    if 2 < change then .Rising else if change < -2 then .Falling else .Stable
  else .Stable

/-- Bets counted into the 24-slot `hourlyBets` array for hour `h`. -/
def hourlyBetCount (bets : List Bet) (h : ℕ) : ℕ :=
  (bets.filter (fun b => hourOfDay b.placed_at = h)).length

/-- `hourlyBets.indexOf(Math.max(...hourlyBets))`: the first hour attaining
the maximum count. -/
def peakHourOf (bets : List Bet) : ℕ :=
  let counts := (List.range 24).map (hourlyBetCount bets)
  let m := counts.foldr max 0
  (((List.range 24).find? (fun h => hourlyBetCount bets h = m)).getD 0)

/-- The descending scan of the minute-bucketed variant: compares only the
LEADING option's percentage against the fixed threshold 5, most recent pair
first; the fuel argument is the index of the later point of the pair. -/
def shiftScanLeading (lid : String) (data : List DataPoint) : ℕ → Option ℤ
  | 0 => none
  | i + 1 =>
    if 5 < |lookupQ (dget data (i + 1)).percentages lid -
        lookupQ (dget data i).percentages lid| then
      some (dget data (i + 1)).timestamp
    else shiftScanLeading lid data i

/-- `lastMajorShift` of `calculateEnhancedInsights`. -/
def lastMajorShiftMinute (lid : String) (data : List DataPoint) : Option ℤ :=
  shiftScanLeading lid data (data.length - 1)

/-- `calculateEnhancedInsights` (the fields the spec describes). -/
def calculateEnhancedInsights (options : List OptionRow) (historicalData : List DataPoint)
    (bets : List Bet) : InsightsMinute :=
  match options with
  | [] =>
    { leadingOption := "No options available"
      volatility := .Low
      trend := .Stable
      peakBettingHour := 0
      averageVelocity := 0
      volatilityScore := 0
      trendingOption := "No options available"
      lastMajorShift := none }
  | o0 :: rest =>
    let leading := leadingOptionRow o0 rest
    let changes := diffsFor historicalData leading.id
    let avgChange := changes.sum / changes.length
    let volatilityScore : ℚ := if 1 < historicalData.length then min 100 (avgChange * 10) else 0
    let volatility : VolLevel :=
      if 1 < historicalData.length then
        if 10 < avgChange then .High else if 5 < avgChange then .Medium else .Low
      else .Low
    let velocities := historicalData.map (fun p => p.bettingVelocity)
    let averageVelocity := if 0 < velocities.length then velocities.sum / velocities.length else 0
    let latest := dget historicalData (historicalData.length - 1)
    let trending := rest.foldl (fun p c =>
      if lookupQ latest.percentages p.id < lookupQ latest.percentages c.id then c else p) o0
    { leadingOption := leading.label
      volatility := volatility
      trend := trendMinute leading.id historicalData
      peakBettingHour := peakHourOf bets
      averageVelocity := averageVelocity
      volatilityScore := volatilityScore
      trendingOption := trending.label
      lastMajorShift := lastMajorShiftMinute leading.id historicalData }

/-! ## Insight Extractor, hour-bucketed variant (`generateEventInsights`) -/

structure InsightsHour where
  peakBettingHour : ℤ
  totalBettingVelocity : ℚ
  trendingOption : String
  volatilityScore : ℚ
  lastMajorShift : Option ℤ

/-- The descending scan of the hour-bucketed variant: ANY option's percentage
change above the fixed threshold 10. -/
def shiftScanAny (optionIds : List String) (data : List DataPoint) : ℕ → Option ℤ
  | 0 => none
  | i + 1 =>
    if optionIds.any (fun o =>
        10 < |lookupQ (dget data (i + 1)).percentages o -
          lookupQ (dget data i).percentages o|) then
      some (dget data (i + 1)).timestamp
    else shiftScanAny optionIds data i

/-- `lastMajorShift` of `generateEventInsights`. -/
def lastMajorShiftHour (optionIds : List String) (data : List DataPoint) : Option ℤ :=
  shiftScanAny optionIds data (data.length - 1)

/-- Hourly volume keyed by hour-of-day, summed over the series' points
(`hourlyVolume`). -/
def hourVolume (data : List DataPoint) (h : ℤ) : ℚ :=
  ((data.filter (fun p => hourOfDay p.timestamp = h)).map (fun p => p.bettingVelocity)).sum

/-- `Object.entries(hourlyVolume).reduce(...)`: integer-like object keys
iterate in ascending numeric order; the reduce keeps the first hour attaining
a strictly larger volume, starting from `{hour: 0, volume: 0}`. -/
def peakHourOfSeries (data : List DataPoint) : ℤ :=
  let hs := List.insertionSort (· ≤ ·) ((data.map (fun p => hourOfDay p.timestamp)).dedup)
  (hs.foldl (fun pk h => if pk.2 < hourVolume data h then (h, hourVolume data h) else pk)
    ((0 : ℤ), (0 : ℚ))).1

/-- Mean |percentage change| for one option. -/
def meanAbsChange (data : List DataPoint) (oid : String) : ℚ :=
  (diffsFor data oid).sum / (diffsFor data oid).length

/-- `generateEventInsights` (pure body; the `try` never throws on the inputs
the facade produces). -/
def generateEventInsights (historicalData : List DataPoint) (options : List OptionRow) :
    InsightsHour :=
  let latest := dget historicalData (historicalData.length - 1)
  let trending := options.foldl (fun tr o =>
    if lookupQ latest.momentum tr.id < lookupQ latest.momentum o.id then o else tr)
    (options.getD 0 ⟨"", "", "", 0, 0⟩)
  let scores := options.map (fun o => meanAbsChange historicalData o.id)
  { peakBettingHour := peakHourOfSeries historicalData
    totalBettingVelocity :=
      (historicalData.map (fun p => p.bettingVelocity)).sum / historicalData.length
    trendingOption := trending.label
    volatilityScore := scores.sum / scores.length
    lastMajorShift := lastMajorShiftHour (options.map (fun o => o.id)) historicalData }

/-! ## Analytics Facade: the two `getEventAnalytics` entry points.
The external store is a snapshot passed explicitly; a thrown
`Event not found` is the `NotFound` condition and a thrown
`No betting options found for this event` is the `DataIntegrity` condition. -/

structure Store where
  events : List EventRow
  bets : List Bet
  options : List OptionRow

inductive AnalyticsError where
  | NotFound
  | DataIntegrity
deriving DecidableEq

/-- `.from('events').select(...).eq('id', eventId).single()`. -/
def findEvent (s : Store) (eventId : String) : Option EventRow :=
  s.events.find? (fun e => e.id = eventId)

/-- Bets of the event, `order('placed_at', { ascending: true })`. -/
def betsFor (s : Store) (eventId : String) : List Bet :=
  List.insertionSort (fun a b => a.placed_at ≤ b.placed_at)
    (s.bets.filter (fun b => b.event_id = eventId))

/-- Active bets of the event (`.eq('status', 'active')`), ordered. -/
def activeBetsFor (s : Store) (eventId : String) : List Bet :=
  List.insertionSort (fun a b => a.placed_at ≤ b.placed_at)
    (s.bets.filter (fun b => b.event_id = eventId ∧ b.status = "active"))

/-- Options of the event, `order('label')` (minute-bucketed variant). -/
def optionsByLabel (s : Store) (eventId : String) : List OptionRow :=
  List.insertionSort (fun a b => a.label ≤ b.label)
    (s.options.filter (fun o => o.event_id = eventId))

/-- Options of the event in creation order (hour-bucketed variant
orders by `created_at`, i.e. keeps the store's insertion order). -/
def optionsFor (s : Store) (eventId : String) : List OptionRow :=
  s.options.filter (fun o => o.event_id = eventId)

structure EventAnalyticsMinute where
  event : EventRow
  currentPercentages : List (String × ℚ)
  historicalData : List DataPoint
  totalPool : ℚ
  insights : InsightsMinute

/-- The minute-bucketed `getEventAnalytics` (first variant): fails only when
the event row is missing; empty option metadata is NOT rejected. -/
def getEventAnalyticsMinute (s : Store) (eventId : String) :
    Except AnalyticsError EventAnalyticsMinute :=
  let bets := betsFor s eventId
  match findEvent s eventId with
  | none => .error .NotFound
  | some event =>
    let optionsData := optionsByLabel s eventId
    let historicalData := generateOptimizedHistoricalData bets
      (optionsData.map (fun o => o.id)) event.total_pool event.participant_count
    let totalPool := event.total_pool
    let currentPercentages := optionsData.map (fun o =>
      (o.id, if 0 < totalPool then o.total_bets / totalPool * 100 else 0))
    .ok { event := event
          currentPercentages := currentPercentages
          historicalData := historicalData
          totalPool := totalPool
          insights := calculateEnhancedInsights optionsData historicalData bets }

structure EventAnalyticsHour where
  eventId : String
  totalPool : ℚ
  participantCount : ℕ
  historicalData : List DataPoint
  insights : InsightsHour

/-- The hour-bucketed `getEventAnalytics` (second variant): throws
`Event not found` and `No betting options found for this event`. -/
def getEventAnalyticsHour (s : Store) (eventId : String) (now : ℤ) :
    Except AnalyticsError EventAnalyticsHour :=
  match findEvent s eventId with
  | none => .error .NotFound
  | some event =>
    let options := optionsFor s eventId
    if options.isEmpty then .error .DataIntegrity
    else
      let bets := activeBetsFor s eventId
      let historicalData := generateRealHistoricalData bets (options.map (fun o => o.id)) now
      .ok { eventId := eventId
            totalPool := event.total_pool
            participantCount := event.participant_count
            historicalData := historicalData
            insights := generateEventInsights historicalData options }

/-! ## Fallback generator (`generateFallbackHistoricalData`)
invoked when the ledger read fails.  `Math.random()` is modelled as an
explicit stream `rng : ℕ → ℚ` consumed left to right (per hour step:
one draw per option, then one for `randomVariation`, then one for
`bettingVelocity`); `Math.sin` is an opaque real function modelled as an
explicit parameter `sinF`. -/

/-- `Math.max(5, Math.min(85, x))`. -/
def clamp585 (x : ℚ) : ℚ := max 5 (min 85 x)

/-- Current percentages the fallback starts from (option totals, or equal
share when the event has no bets). -/
def fallbackCurrentPercentages (options : List OptionRow) : List (String × ℚ) :=
  let totalBets := (options.map (fun o => o.total_bets)).sum
  if 0 < totalBets then
    options.map (fun o => (o.id, o.total_bets / totalBets * 100))
  else options.map (fun o => (o.id, equalShare options.length))

/-- One simulated point of the fallback path, for hour offset `i`; `j` is the
loop step (`j = 23 - i`) fixing which stream draws this step consumes. -/
def fallbackPoint (sinF : ℚ → ℚ) (rng : ℕ → ℚ) (options : List OptionRow)
    (now : ℤ) (j : ℕ) : DataPoint :=
  let n := options.length
  let i : ℕ := 23 - j
  let base := j * (n + 2)
  let variationFactor : ℚ := min ((i : ℚ) / 12) 1
  let cur := fallbackCurrentPercentages options
  let raw := (options.zip (List.range n)).map (fun p =>
    let baseVariation := (rng (base + p.2) - 0.5) * 20 * variationFactor
    let timePattern := sinF (((i : ℚ) + p.2 * 2) / 6) * 10 * variationFactor
    (p.1.id, clamp585 (lookupQ cur p.1.id + baseVariation + timePattern), baseVariation))
  let total := (raw.map (fun t => t.2.1)).sum
  let totalBets := (options.map (fun o => o.total_bets)).sum
  let growthFactor : ℚ := 0.3 + 0.7 * ((23 : ℚ) - (i : ℚ)) / 23
  let randomVariation := 0.8 + rng (base + n) * 0.4
  let estimatedPool := totalBets * 50 * growthFactor * randomVariation
  { timestamp := now - i * 3600
    percentages := raw.map (fun t => (t.1, t.2.1 / total * 100))
    totalPool := max 0 estimatedPool
    participantCount := 0
    totalBets := []
    bettingVelocity := (⌊rng (base + n + 1) * 5⌋ : ℚ) + 1
    momentum := raw.map (fun t => (t.1, t.2.2)) }

/-- `generateFallbackHistoricalData`: 24 simulated points driven by the
random stream. -/
def generateFallbackHistoricalData (sinF : ℚ → ℚ) (rng : ℕ → ℚ)
    (options : List OptionRow) (now : ℤ) : List DataPoint :=
  (List.range 24).map (fallbackPoint sinF rng options now)

/-! ## Realtime snapshot (`getRealTimeBettingStats`, first variant):
the momentum of one option from the trailing-hour bets. -/

/-- `recentAmount > 0 ? (recentAmount / (option.total_bets || 1)) * 100 : 0`. -/
def realtimeMomentum (optionTotal : ℚ) (recentBets : List Bet) (oid : String) : ℚ :=
  let recentAmount :=
    ((recentBets.filter (fun b => b.option_id = oid)).map (fun b => b.amount)).sum
  if 0 < recentAmount then
    recentAmount / (if optionTotal = 0 then 1 else optionTotal) * 100
  else 0

/-- The whole `momentum` record returned by `getRealTimeBettingStats`. -/
def getRealTimeMomentum (options : List OptionRow) (recentBets : List Bet) :
    List (String × ℚ) :=
  options.map (fun o => (o.id, realtimeMomentum o.total_bets recentBets o.id))

/-! ## Predicates used to state the shift-detection theorems -/

/-- A major shift between points `j - 1` and `j` in the sense actually tested
by the minute-bucketed variant: the LEADING option's percentage moved by more
than 5 points. -/
def shiftCondLeading (lid : String) (data : List DataPoint) (j : ℕ) : Prop :=
  5 < |lookupQ (dget data j).percentages lid - lookupQ (dget data (j - 1)).percentages lid|

/-- A major shift between points `j - 1` and `j` in the sense tested by the
hour-bucketed variant: SOME option's percentage moved by more than 10
points. -/
def shiftCondAny (optionIds : List String) (data : List DataPoint) (j : ℕ) : Prop :=
  (optionIds.any (fun o =>
    10 < |lookupQ (dget data j).percentages o - lookupQ (dget data (j - 1)).percentages o|)) = true

/-! ## Helper lemmas -/

theorem getD_range_map (n : ℕ) (f : ℕ → DataPoint) (i : ℕ) (h : i < n) :
    ((List.range n).map f).getD i default = f i := by
  have hl : i < ((List.range n).map f).length := by simpa using h
  rw [List.getD_eq_getElem _ _ hl]
  simp

theorem hasKey_of_mem {m : List (String × ℚ)} {p : String × ℚ} (h : p ∈ m) :
    hasKey m p.1 = true := by
  simp only [hasKey, List.any_eq_true]
  exact ⟨p, h, by simp⟩

theorem lookupQ_map_apply (m : List (String × ℚ)) (g : String → ℚ) (k : String)
    (h : hasKey m k = true) :
    lookupQ (m.map (fun p => (p.1, g p.1))) k = g k := by
  induction m with
  | nil => simp [hasKey] at h
  | cons p t ih =>
    by_cases hk : p.1 = k
    · simp [lookupQ, List.find?_cons_of_pos, hk]
    · have h' : hasKey t k = true := by
        simpa [hasKey, hk] using h
      have := ih h'
      simpa [lookupQ, List.find?_cons_of_neg, hk] using this

/-! ## Smoother structure lemmas -/

theorem smooth_short {l : List DataPoint} (h : l.length < 3) :
    smoothDataPoints l = l := by
  rw [smoothDataPoints, if_pos h]

theorem smooth_length (l : List DataPoint) :
    (smoothDataPoints l).length = l.length := by
  rw [smoothDataPoints]
  split
  · rfl
  · simp

theorem smooth_getD_zero {l : List DataPoint} (h : 3 ≤ l.length) :
    (smoothDataPoints l).getD 0 default = l.getD 0 default := by
  rw [smoothDataPoints, if_neg (by omega), getD_range_map _ _ _ (by omega)]
  have h0 : (0 = 0 ∨ 0 = l.length - 1) := Or.inl rfl
  rw [if_pos h0, dget]

theorem smooth_getD_last {l : List DataPoint} (h : 3 ≤ l.length) :
    (smoothDataPoints l).getD (l.length - 1) default = l.getD (l.length - 1) default := by
  rw [smoothDataPoints, if_neg (by omega), getD_range_map _ _ _ (by omega)]
  have h1 : (l.length - 1 = 0 ∨ l.length - 1 = l.length - 1) := Or.inr rfl
  rw [if_pos h1, dget]

/-! ## Association-list lemmas -/

theorem lookupQ_nil (o : String) : lookupQ [] o = 0 := rfl

theorem lookupQ_cons_of_pos {q : String × ℚ} {t : List (String × ℚ)} {o : String}
    (h : q.1 = o) : lookupQ (q :: t) o = q.2 := by
  rw [lookupQ, List.find?_cons_of_pos _ (by simpa using h)]
  rfl

theorem lookupQ_cons_of_neg {q : String × ℚ} {t : List (String × ℚ)} {o : String}
    (h : ¬ q.1 = o) : lookupQ (q :: t) o = lookupQ t o := by
  rw [lookupQ, List.find?_cons_of_neg _ (by simpa using h), lookupQ]

theorem lookupQ_eq_zero_of_not_hasKey {m : List (String × ℚ)} {o : String}
    (h : hasKey m o = false) : lookupQ m o = 0 := by
  have hf : m.find? (fun p => p.1 = o) = none := by
    rw [List.find?_eq_none]
    intro x hx
    simp only [hasKey, List.any_eq_false] at h
    exact h x hx
  rw [lookupQ, hf]
  rfl

theorem lookupQ_append_left {m1 m2 : List (String × ℚ)} {o : String}
    (h : hasKey m1 o = true) : lookupQ (m1 ++ m2) o = lookupQ m1 o := by
  simp only [hasKey, List.any_eq_true] at h
  obtain ⟨p, hp, hpo⟩ := h
  have hs : (m1.find? (fun p => p.1 = o)).isSome := by
    rw [List.find?_isSome]
    exact ⟨p, hp, hpo⟩
  rw [lookupQ, lookupQ, List.find?_append]
  rcases hf : m1.find? (fun p => p.1 = o) with _ | q
  · rw [hf] at hs
    simp at hs
  · rw [hf]
    rfl

theorem lookupQ_append_right {m1 m2 : List (String × ℚ)} {o : String}
    (h : hasKey m1 o = false) : lookupQ (m1 ++ m2) o = lookupQ m2 o := by
  have hf : m1.find? (fun p => p.1 = o) = none := by
    rw [List.find?_eq_none]
    intro x hx
    simp only [hasKey, List.any_eq_false] at h
    exact h x hx
  rw [lookupQ, lookupQ, List.find?_append, hf]
  rfl

theorem lookupQ_map_update_ne (m : List (String × ℚ)) (k : String) (a : ℚ)
    {o : String} (h : o ≠ k) :
    lookupQ (m.map (fun p => if p.1 = k then (p.1, p.2 + a) else p)) o = lookupQ m o := by
  induction m with
  | nil => rfl
  | cons q t ih =>
    rw [List.map_cons]
    by_cases hqk : q.1 = k
    · rw [if_pos hqk]
      have hno : ¬ q.1 = o := by
        rw [hqk]
        exact fun hko => h hko.symm
      rw [lookupQ_cons_of_neg (by simpa using hno), lookupQ_cons_of_neg hno]
      exact ih
    · rw [if_neg hqk]
      by_cases hq : q.1 = o
      · rw [lookupQ_cons_of_pos hq, lookupQ_cons_of_pos hq]
      · rw [lookupQ_cons_of_neg hq, lookupQ_cons_of_neg hq]
        exact ih

theorem lookupQ_map_update_eq (m : List (String × ℚ)) (k : String) (a : ℚ)
    (h : hasKey m k = true) :
    lookupQ (m.map (fun p => if p.1 = k then (p.1, p.2 + a) else p)) k =
      lookupQ m k + a := by
  induction m with
  | nil => simp [hasKey] at h
  | cons q t ih =>
    rw [List.map_cons]
    by_cases hq : q.1 = k
    · rw [if_pos hq, lookupQ_cons_of_pos (by simpa using hq), lookupQ_cons_of_pos hq]
    · have h' : hasKey t k = true := by
        simpa [hasKey, hq] using h
      rw [if_neg hq, lookupQ_cons_of_neg hq, lookupQ_cons_of_neg hq]
      exact ih h'

theorem lookupQ_updateAdd (m : List (String × ℚ)) (k : String) (a : ℚ) (o : String) :
    lookupQ (updateAdd m k a) o = lookupQ m o + (if o = k then a else 0) := by
  rw [updateAdd]
  by_cases hk : hasKey m k = true
  · rw [if_pos hk]
    by_cases ho : o = k
    · rw [ho, if_pos rfl, lookupQ_map_update_eq m k a hk]
    · rw [lookupQ_map_update_ne m k a ho, if_neg ho, add_zero]
  · rw [if_neg hk]
    have hk' : hasKey m k = false := by
      simpa using hk
    by_cases ho : o = k
    · have hmo' : hasKey m o = false := by
        rw [ho]
        exact hk'
      rw [ho, if_pos rfl]
      rw [lookupQ_append_right hk']
      rw [lookupQ_eq_zero_of_not_hasKey hk']
      rw [lookupQ_cons_of_pos rfl, zero_add]
    · rw [if_neg ho]
      by_cases hmo : hasKey m o = true
      · rw [lookupQ_append_left hmo, add_zero]
      · have hmo' : hasKey m o = false := by
          simpa using hmo
        rw [lookupQ_append_right hmo']
        rw [lookupQ_eq_zero_of_not_hasKey hmo']
        rw [lookupQ_cons_of_neg (fun hc => ho hc.symm), lookupQ_nil, add_zero]

theorem lookupQ_accumPairs (l : List (String × ℚ)) (c0 : List (String × ℚ)) (o : String) :
    lookupQ (accumPairs c0 l) o =
      lookupQ c0 o + ((l.filter (fun p => p.1 = o)).map Prod.snd).sum := by
  induction l generalizing c0 with
  | nil => simp [accumPairs]
  | cons p t ih =>
    rw [accumPairs, List.foldl_cons, ← accumPairs, ih, lookupQ_updateAdd]
    by_cases hp : p.1 = o
    · rw [List.filter_cons_of_pos (by simpa using hp), if_pos hp.symm]
      simp only [List.map_cons, List.sum_cons]
      ring
    · rw [List.filter_cons_of_neg (by simpa using hp), if_neg (fun h => hp h.symm)]
      ring

/-! ## C4: smoother identity below length 3, endpoint preservation -/

/-- C4: for input series shorter than 3 the smoother returns its input
unchanged, and for series of length at least 3 the output has the same
length and its first and last points equal the first and last input points
(the whole `DataPoint`, hence `totalPool` and `bettingVelocity` included). -/
theorem C4_smoother_endpoint_preservation (l : List DataPoint) :
    (l.length < 3 → smoothDataPoints l = l) ∧
    (3 ≤ l.length →
      (smoothDataPoints l).length = l.length ∧
      (smoothDataPoints l).getD 0 default = l.getD 0 default ∧
      (smoothDataPoints l).getD (l.length - 1) default = l.getD (l.length - 1) default) := by
  exact ⟨fun h => smooth_short h,
    fun h => ⟨smooth_length l, smooth_getD_zero h, smooth_getD_last h⟩⟩

/-- C4 witness: a singleton series is returned unchanged, and on a concrete
3-point series the first point is preserved. -/
theorem C4_smoother_endpoint_preservation_witness :
    smoothDataPoints [(⟨0, [("A", 10)], 7, 1, [], 2, [("A", 0)]⟩ : DataPoint)] =
      [(⟨0, [("A", 10)], 7, 1, [], 2, [("A", 0)]⟩ : DataPoint)] ∧
    (smoothDataPoints
        [(⟨0, [("A", 10)], 7, 1, [], 2, [("A", 0)]⟩ : DataPoint),
         (⟨60, [("A", 40)], 7, 1, [], 2, [("A", 30)]⟩ : DataPoint),
         (⟨120, [("A", 20)], 7, 1, [], 2, [("A", -20)]⟩ : DataPoint)]).getD 0 default =
      ([(⟨0, [("A", 10)], 7, 1, [], 2, [("A", 0)]⟩ : DataPoint),
        (⟨60, [("A", 40)], 7, 1, [], 2, [("A", 30)]⟩ : DataPoint),
        (⟨120, [("A", 20)], 7, 1, [], 2, [("A", -20)]⟩ : DataPoint)]).getD 0 default := by
  constructor
  · exact (C4_smoother_endpoint_preservation _).1 (by simp)
  · exact ((C4_smoother_endpoint_preservation _).2 (by simp)).2.1

/-! ## C5: interior points of the smoother -/

/-- C5: for series of length at least 3 and interior index `i`, the smoothed
point is the `0.2 / 0.6 / 0.2` weighted average of the neighbouring
percentages and momenta (per option of the current point), while its
`timestamp`, `totalPool` and `bettingVelocity` come from the current point
unchanged. -/
theorem C5_smoother_interior_points (l : List DataPoint) (i : ℕ)
    (h3 : 3 ≤ l.length) (h0 : 0 < i) (hi : i < l.length - 1) :
    ((smoothDataPoints l).getD i default).timestamp = (dget l i).timestamp ∧
    ((smoothDataPoints l).getD i default).totalPool = (dget l i).totalPool ∧
    ((smoothDataPoints l).getD i default).bettingVelocity = (dget l i).bettingVelocity ∧
    (∀ p ∈ (dget l i).percentages,
      lookupQ ((smoothDataPoints l).getD i default).percentages p.1 =
        0.2 * lookupQ (dget l (i - 1)).percentages p.1 +
        0.6 * lookupQ (dget l i).percentages p.1 +
        0.2 * lookupQ (dget l (i + 1)).percentages p.1) ∧
    (∀ p ∈ (dget l i).percentages,
      lookupQ ((smoothDataPoints l).getD i default).momentum p.1 =
        0.2 * lookupQ (dget l (i - 1)).momentum p.1 +
        0.6 * lookupQ (dget l i).momentum p.1 +
        0.2 * lookupQ (dget l (i + 1)).momentum p.1) := by
  have hlen : ¬ l.length < 3 := by omega
  have hsm : (smoothDataPoints l).getD i default =
      smoothPoint (dget l (i - 1)) (dget l i) (dget l (i + 1)) := by
    rw [smoothDataPoints, if_neg hlen, getD_range_map _ _ _ (by omega)]
    rw [if_neg (by omega : ¬ (i = 0 ∨ i = l.length - 1))]
  rw [hsm]
  refine ⟨rfl, rfl, rfl, ?_, ?_⟩
  · intro p hp
    have h1 : lookupQ (smoothPoint (dget l (i - 1)) (dget l i) (dget l (i + 1))).percentages p.1 =
        lookupQ (dget l (i - 1)).percentages p.1 * 0.2 +
          lookupQ (dget l i).percentages p.1 * 0.6 +
          lookupQ (dget l (i + 1)).percentages p.1 * 0.2 :=
      lookupQ_map_apply (dget l i).percentages
        (fun s => lookupQ (dget l (i - 1)).percentages s * 0.2 +
          lookupQ (dget l i).percentages s * 0.6 +
          lookupQ (dget l (i + 1)).percentages s * 0.2) p.1 (hasKey_of_mem hp)
    rw [h1]
    ring
  · intro p hp
    have h1 : lookupQ (smoothPoint (dget l (i - 1)) (dget l i) (dget l (i + 1))).momentum p.1 =
        lookupQ (dget l (i - 1)).momentum p.1 * 0.2 +
          lookupQ (dget l i).momentum p.1 * 0.6 +
          lookupQ (dget l (i + 1)).momentum p.1 * 0.2 :=
      lookupQ_map_apply (dget l i).percentages
        (fun s => lookupQ (dget l (i - 1)).momentum s * 0.2 +
          lookupQ (dget l i).momentum s * 0.6 +
          lookupQ (dget l (i + 1)).momentum s * 0.2) p.1 (hasKey_of_mem hp)
    rw [h1]
    ring

/-- C5 witness: on a concrete 3-point series the interior point keeps its
timestamp. -/
theorem C5_smoother_interior_points_witness :
    ((smoothDataPoints
        [(⟨0, [("A", 10)], 7, 1, [], 2, [("A", 0)]⟩ : DataPoint),
         (⟨60, [("A", 40)], 8, 1, [], 3, [("A", 30)]⟩ : DataPoint),
         (⟨120, [("A", 20)], 9, 1, [], 4, [("A", -20)]⟩ : DataPoint)]).getD 1 default).timestamp =
      (dget [(⟨0, [("A", 10)], 7, 1, [], 2, [("A", 0)]⟩ : DataPoint),
         (⟨60, [("A", 40)], 8, 1, [], 3, [("A", 30)]⟩ : DataPoint),
         (⟨120, [("A", 20)], 9, 1, [], 4, [("A", -20)]⟩ : DataPoint)] 1).timestamp :=
  (C5_smoother_interior_points _ 1 (by simp) (by omega) (by simp)).1

/-! ## C10: realtime-snapshot momentum is never negative -/

/-- C10: with non-negative stored option totals and non-negative recent bet
amounts, every momentum value of `getRealTimeBettingStats` is `≥ 0`: it is a
ratio of recent amount to the option's total, not a signed delta. -/
theorem C10_realtime_momentum_nonneg (options : List OptionRow) (recentBets : List Bet)
    (hopt : ∀ o ∈ options, 0 ≤ o.total_bets)
    (hamt : ∀ b ∈ recentBets, 0 ≤ b.amount) :
    ∀ p ∈ getRealTimeMomentum options recentBets, 0 ≤ p.2 := by
  intro p hp
  rw [getRealTimeMomentum] at hp
  obtain ⟨o, ho, rfl⟩ := List.mem_map.mp hp
  rw [realtimeMomentum]
  by_cases hpos :
      0 < ((recentBets.filter (fun b => b.option_id = o.id)).map (fun b => b.amount)).sum
  · rw [if_pos hpos]
    have hden : 0 < (if o.total_bets = 0 then 1 else o.total_bets) := by
      by_cases h0 : o.total_bets = 0
      · rw [if_pos h0]; norm_num
      · rw [if_neg h0]
        exact lt_of_le_of_ne (hopt o ho) (Ne.symm h0)
    positivity
  · rw [if_neg hpos]

/-- C10 witness: one option with total 10 and one recent bet of 5 gives
momentum 50 ≥ 0. -/
theorem C10_realtime_momentum_nonneg_witness :
    0 ≤ (("A", (50 : ℚ))).2 := by
  refine C10_realtime_momentum_nonneg
    [(⟨"A", "e", "Option A", 10, 1⟩ : OptionRow)]
    [(⟨"e", "A", 5, 0, "u", "active"⟩ : Bet)] ?_ ?_ ("A", 50) ?_
  · intro o ho
    simp at ho
    subst ho
    norm_num
  · intro b hb
    simp at hb
    subst hb
    norm_num
  · show ("A", (50 : ℚ)) ∈ getRealTimeMomentum _ _
    simp [getRealTimeMomentum, realtimeMomentum]
    norm_num

/-! ## Characterization of the descending shift scans -/

theorem scanLeading_none_iff (lid : String) (data : List DataPoint) (n : ℕ) :
    shiftScanLeading lid data n = none ↔
      ∀ j, 1 ≤ j → j ≤ n → ¬ shiftCondLeading lid data j := by
  induction n with
  | zero =>
    simp only [shiftScanLeading]
    constructor
    · intro _ j h1 h2
      omega
    · intro _
      trivial
  | succ n ih =>
    simp only [shiftScanLeading]
    by_cases hc : shiftCondLeading lid data (n + 1)
    · have hc' : 5 < |lookupQ (dget data (n + 1)).percentages lid -
          lookupQ (dget data n).percentages lid| := hc
      rw [if_pos hc']
      constructor
      · intro h
        exact absurd h (by simp)
      · intro hall
        exact absurd hc (hall (n + 1) (by omega) le_rfl)
    · have hc' : ¬ 5 < |lookupQ (dget data (n + 1)).percentages lid -
          lookupQ (dget data n).percentages lid| := hc
      rw [if_neg hc', ih]
      constructor
      · intro h j h1 h2
        rcases Nat.lt_or_ge j (n + 1) with hj | hj
        · exact h j h1 (by omega)
        · have hj' : j = n + 1 := by omega
          rw [hj']
          exact hc
      · intro h j h1 h2
        exact h j h1 (by omega)

theorem scanLeading_some (lid : String) (data : List DataPoint) (n : ℕ) (t : ℤ) :
    shiftScanLeading lid data n = some t →
      ∃ j, 1 ≤ j ∧ j ≤ n ∧ shiftCondLeading lid data j ∧
        t = (dget data j).timestamp ∧
        ∀ j', j < j' → j' ≤ n → ¬ shiftCondLeading lid data j' := by
  induction n with
  | zero =>
    intro h
    simp [shiftScanLeading] at h
  | succ n ih =>
    intro h
    simp only [shiftScanLeading] at h
    by_cases hc : shiftCondLeading lid data (n + 1)
    · have hc' : 5 < |lookupQ (dget data (n + 1)).percentages lid -
          lookupQ (dget data n).percentages lid| := hc
      rw [if_pos hc'] at h
      refine ⟨n + 1, by omega, le_rfl, hc, by simpa using h.symm, ?_⟩
      intro j' hj1 hj2 _
      omega
    · have hc' : ¬ 5 < |lookupQ (dget data (n + 1)).percentages lid -
          lookupQ (dget data n).percentages lid| := hc
      rw [if_neg hc'] at h
      obtain ⟨j, h1, h2, h3, h4, h5⟩ := ih h
      refine ⟨j, h1, by omega, h3, h4, ?_⟩
      intro j' hj1 hj2
      rcases Nat.lt_or_ge j' (n + 1) with hj | hj
      · exact h5 j' hj1 (by omega)
      · have hj' : j' = n + 1 := by omega
        rw [hj']
        exact hc

theorem scanAny_none_iff (optionIds : List String) (data : List DataPoint) (n : ℕ) :
    shiftScanAny optionIds data n = none ↔
      ∀ j, 1 ≤ j → j ≤ n → ¬ shiftCondAny optionIds data j := by
  induction n with
  | zero =>
    simp only [shiftScanAny]
    constructor
    · intro _ j h1 h2
      omega
    · intro _
      trivial
  | succ n ih =>
    simp only [shiftScanAny]
    by_cases hc : shiftCondAny optionIds data (n + 1)
    · have hc' : (optionIds.any (fun o =>
          10 < |lookupQ (dget data (n + 1)).percentages o -
            lookupQ (dget data n).percentages o|)) = true := hc
      rw [if_pos hc']
      constructor
      · intro h
        exact absurd h (by simp)
      · intro hall
        exact absurd hc (hall (n + 1) (by omega) le_rfl)
    · have hc' : ¬ (optionIds.any (fun o =>
          10 < |lookupQ (dget data (n + 1)).percentages o -
            lookupQ (dget data n).percentages o|)) = true := hc
      rw [if_neg hc', ih]
      constructor
      · intro h j h1 h2
        rcases Nat.lt_or_ge j (n + 1) with hj | hj
        · exact h j h1 (by omega)
        · have hj' : j = n + 1 := by omega
          rw [hj']
          exact hc
      · intro h j h1 h2
        exact h j h1 (by omega)

theorem scanAny_some (optionIds : List String) (data : List DataPoint) (n : ℕ) (t : ℤ) :
    shiftScanAny optionIds data n = some t →
      ∃ j, 1 ≤ j ∧ j ≤ n ∧ shiftCondAny optionIds data j ∧
        t = (dget data j).timestamp ∧
        ∀ j', j < j' → j' ≤ n → ¬ shiftCondAny optionIds data j' := by
  induction n with
  | zero =>
    intro h
    simp [shiftScanAny] at h
  | succ n ih =>
    intro h
    simp only [shiftScanAny] at h
    by_cases hc : shiftCondAny optionIds data (n + 1)
    · have hc' : (optionIds.any (fun o =>
          10 < |lookupQ (dget data (n + 1)).percentages o -
            lookupQ (dget data n).percentages o|)) = true := hc
      rw [if_pos hc'] at h
      refine ⟨n + 1, by omega, le_rfl, hc, by simpa using h.symm, ?_⟩
      intro j' hj1 hj2 _
      omega
    · have hc' : ¬ (optionIds.any (fun o =>
          10 < |lookupQ (dget data (n + 1)).percentages o -
            lookupQ (dget data n).percentages o|)) = true := hc
      rw [if_neg hc'] at h
      obtain ⟨j, h1, h2, h3, h4, h5⟩ := ih h
      refine ⟨j, h1, by omega, h3, h4, ?_⟩
      intro j' hj1 hj2
      rcases Nat.lt_or_ge j' (n + 1) with hj | hj
      · exact h5 j' hj1 (by omega)
      · have hj' : j' = n + 1 := by omega
        rw [hj']
        exact hc

/-! ## C6: last major shift -/

/-- C6 counterexample: in the minute-bucketed variant, option B jumps by 8
points (more than the threshold 5) between the only two points, while the
leading option A moves by only 2; the claim says `lastMajorShift` is absent
only when no such transition exists, yet the code reports none, because it
compares only the leading option's percentage. -/
theorem C6_last_major_shift_counterexample :
    (calculateEnhancedInsights
        [(⟨"A", "e", "A", 50, 0⟩ : OptionRow),
         (⟨"B", "e", "B", 30, 0⟩ : OptionRow),
         (⟨"C", "e", "C", 20, 0⟩ : OptionRow)]
        [(⟨0, [("A", 40), ("B", 30), ("C", 30)], 100, 0, [], 0, []⟩ : DataPoint),
         (⟨3600, [("A", 42), ("B", 38), ("C", 20)], 100, 0, [], 0, []⟩ : DataPoint)]
        []).lastMajorShift = none ∧
    5 < |lookupQ (⟨3600, [("A", 42), ("B", 38), ("C", 20)], 100, 0, [], 0, []⟩ :
          DataPoint).percentages "B" -
        lookupQ (⟨0, [("A", 40), ("B", 30), ("C", 30)], 100, 0, [], 0, []⟩ :
          DataPoint).percentages "B"| := by
  constructor
  · norm_num [calculateEnhancedInsights, leadingOptionRow, lastMajorShiftMinute,
      shiftScanLeading, dget, lookupQ, List.find?, List.getD, abs_sub_lt_iff]
  · have h1 : lookupQ [("A", (42 : ℚ)), ("B", 38), ("C", 20)] "B" = 38 := rfl
    have h2 : lookupQ [("A", (40 : ℚ)), ("B", 30), ("C", 30)] "B" = 30 := rfl
    show 5 < |lookupQ [("A", (42 : ℚ)), ("B", 38), ("C", 20)] "B" -
      lookupQ [("A", (40 : ℚ)), ("B", 30), ("C", 30)] "B"|
    rw [h1, h2]
    rw [show (38 : ℚ) - 30 = 8 by norm_num, abs_of_nonneg (by norm_num : (0 : ℚ) ≤ 8)]
    norm_num

/-- C6 amended: the hour-bucketed variant scans from the most recent pair
downwards for a change of more than 10 points in ANY option and reports the
later point's timestamp of the first such pair, absent when none exists; the
minute-bucketed variant does the same with threshold 5 but compares only the
LEADING option's percentage, not every option's. -/
theorem C6_last_major_shift_amended :
    (∀ (lid : String) (data : List DataPoint),
      (lastMajorShiftMinute lid data = none ↔
        ∀ j, 1 ≤ j → j ≤ data.length - 1 → ¬ shiftCondLeading lid data j) ∧
      (∀ t, lastMajorShiftMinute lid data = some t →
        ∃ j, 1 ≤ j ∧ j ≤ data.length - 1 ∧ shiftCondLeading lid data j ∧
          t = (dget data j).timestamp ∧
          ∀ j', j < j' → j' ≤ data.length - 1 → ¬ shiftCondLeading lid data j')) ∧
    (∀ (optionIds : List String) (data : List DataPoint),
      (lastMajorShiftHour optionIds data = none ↔
        ∀ j, 1 ≤ j → j ≤ data.length - 1 → ¬ shiftCondAny optionIds data j) ∧
      (∀ t, lastMajorShiftHour optionIds data = some t →
        ∃ j, 1 ≤ j ∧ j ≤ data.length - 1 ∧ shiftCondAny optionIds data j ∧
          t = (dget data j).timestamp ∧
          ∀ j', j < j' → j' ≤ data.length - 1 → ¬ shiftCondAny optionIds data j')) := by
  constructor
  · intro lid data
    exact ⟨scanLeading_none_iff lid data (data.length - 1),
      fun t => scanLeading_some lid data (data.length - 1) t⟩
  · intro optionIds data
    exact ⟨scanAny_none_iff optionIds data (data.length - 1),
      fun t => scanAny_some optionIds data (data.length - 1) t⟩

/-- C6 witness: on a concrete two-point series where option A swings by 15
points, the hour-bucketed scan reports the later timestamp, and the reported
index satisfies the shift condition. -/
theorem C6_last_major_shift_amended_witness :
    shiftCondAny ["A", "B"]
      [(⟨0, [("A", 40), ("B", 60)], 100, 0, [], 0, []⟩ : DataPoint),
       (⟨3600, [("A", 55), ("B", 45)], 100, 0, [], 0, []⟩ : DataPoint)] 1 ∧
    (3600 : ℤ) =
      (dget [(⟨0, [("A", 40), ("B", 60)], 100, 0, [], 0, []⟩ : DataPoint),
        (⟨3600, [("A", 55), ("B", 45)], 100, 0, [], 0, []⟩ : DataPoint)] 1).timestamp := by
  have h := (C6_last_major_shift_amended.2 ["A", "B"]
    [(⟨0, [("A", 40), ("B", 60)], 100, 0, [], 0, []⟩ : DataPoint),
     (⟨3600, [("A", 55), ("B", 45)], 100, 0, [], 0, []⟩ : DataPoint)]).2 3600
  have hsome : lastMajorShiftHour ["A", "B"]
      [(⟨0, [("A", 40), ("B", 60)], 100, 0, [], 0, []⟩ : DataPoint),
       (⟨3600, [("A", 55), ("B", 45)], 100, 0, [], 0, []⟩ : DataPoint)] = some 3600 := by
    norm_num [lastMajorShiftHour, shiftScanAny, dget, lookupQ, List.find?, List.getD,
      abs_sub_lt_iff]
  obtain ⟨j, h1, h2, h3, h4, h5⟩ := h hsome
  simp only [List.length_cons, List.length_nil] at h2
  have hj : j = 1 := by omega
  rw [hj] at h3 h4
  exact ⟨h3, h4⟩

/-! ## C7: trend classification -/

/-- C7 counterexample: with exactly 2 points and the leading option jumping
from 10 to 90 (a +80 change, far above +2), the code still reports `Stable`,
because the trend branch runs only when more than 2 points exist; the claim
says the last 2 points are compared when only 2 exist, which would give
`Rising`. -/
theorem C7_trend_counterexample :
    trendMinute "A"
      [(⟨0, [("A", 10), ("B", 90)], 100, 0, [], 0, []⟩ : DataPoint),
       (⟨3600, [("A", 90), ("B", 10)], 100, 0, [], 0, []⟩ : DataPoint)] = Trend.Stable ∧
    2 < lookupQ (⟨3600, [("A", 90), ("B", 10)], 100, 0, [], 0, []⟩ :
          DataPoint).percentages "A" -
        lookupQ (⟨0, [("A", 10), ("B", 90)], 100, 0, [], 0, []⟩ :
          DataPoint).percentages "A" ∧
    ([(⟨0, [("A", 10), ("B", 90)], 100, 0, [], 0, []⟩ : DataPoint),
      (⟨3600, [("A", 90), ("B", 10)], 100, 0, [], 0, []⟩ : DataPoint)]).length = 2 := by
  refine ⟨?_, ?_, rfl⟩
  · norm_num [trendMinute]
  · norm_num [lookupQ, List.find?]

/-- C7 amended: the trend is computed only when the series has MORE than 2
points — it is the percentage-point change of the leading option from the
third-to-last to the last point, `Rising` above +2, `Falling` below −2, else
`Stable`; for 2 or fewer points (including exactly 2) the trend is always
`Stable`. -/
theorem C7_trend_amended (lid : String) (data : List DataPoint) :
    (data.length ≤ 2 → trendMinute lid data = Trend.Stable) ∧
    (2 < data.length →
      trendMinute lid data =
        (if 2 < lookupQ (dget data (data.length - 1)).percentages lid -
              lookupQ (dget data (data.length - 3)).percentages lid then Trend.Rising
         else if lookupQ (dget data (data.length - 1)).percentages lid -
              lookupQ (dget data (data.length - 3)).percentages lid < -2 then Trend.Falling
         else Trend.Stable)) := by
  constructor
  · intro h
    rw [trendMinute, if_neg (by omega)]
  · intro h
    rw [trendMinute, if_pos h]
    have hd1 : dget (data.drop (data.length - 3)) 0 = dget data (data.length - 3) := by
      rw [dget, dget, List.getD_eq_getElem?_getD, List.getD_eq_getElem?_getD,
        List.getElem?_drop, Nat.add_zero]
    have hlen : (data.drop (data.length - 3)).length = 3 := by
      rw [List.length_drop]
      omega
    have hd2 : dget (data.drop (data.length - 3)) 2 = dget data (data.length - 1) := by
      rw [dget, dget, List.getD_eq_getElem?_getD, List.getD_eq_getElem?_getD,
        List.getElem?_drop]
      congr 2
      omega
    norm_num [hlen, hd1, hd2]

/-- C7 witness: on a concrete 3-point series where the leading option climbs
from 30 to 60, the amended classification applies and the code reports
`Rising`. -/
theorem C7_trend_amended_witness :
    trendMinute "A"
      [(⟨0, [("A", 30)], 100, 0, [], 0, []⟩ : DataPoint),
       (⟨3600, [("A", 45)], 100, 0, [], 0, []⟩ : DataPoint),
       (⟨7200, [("A", 60)], 100, 0, [], 0, []⟩ : DataPoint)] = Trend.Rising := by
  rw [(C7_trend_amended "A"
    [(⟨0, [("A", 30)], 100, 0, [], 0, []⟩ : DataPoint),
     (⟨3600, [("A", 45)], 100, 0, [], 0, []⟩ : DataPoint),
     (⟨7200, [("A", 60)], 100, 0, [], 0, []⟩ : DataPoint)]).2 (by norm_num)]
  norm_num [dget, lookupQ, List.find?, List.getD]

/-! ## Key-uniqueness of the accumulated objects -/

theorem keys_updateAdd (m : List (String × ℚ)) (k : String) (a : ℚ) :
    (updateAdd m k a).map Prod.fst =
      if hasKey m k then m.map Prod.fst else m.map Prod.fst ++ [k] := by
  rw [updateAdd]
  split
  · rw [List.map_map]
    refine List.map_congr_left ?_
    intro p _
    by_cases hp : p.1 = k
    · simp [hp]
    · simp [hp]
  · simp

theorem nodupKeys_updateAdd (m : List (String × ℚ)) (k : String) (a : ℚ)
    (h : (m.map Prod.fst).Nodup) : ((updateAdd m k a).map Prod.fst).Nodup := by
  rw [keys_updateAdd]
  split
  · exact h
  · rename_i hk
    have hkn : k ∉ m.map Prod.fst := by
      intro hmem
      obtain ⟨p, hp, hpk⟩ := List.mem_map.mp hmem
      exact hk (by
        simp only [hasKey, List.any_eq_true]
        exact ⟨p, hp, by simpa using hpk⟩)
    simp [List.nodup_append, h, hkn]

theorem nodupKeys_accumPairs (l : List (String × ℚ)) (c0 : List (String × ℚ))
    (h : (c0.map Prod.fst).Nodup) : ((accumPairs c0 l).map Prod.fst).Nodup := by
  induction l generalizing c0 with
  | nil => exact h
  | cons p t ih =>
    rw [accumPairs, List.foldl_cons, ← accumPairs]
    exact ih _ (nodupKeys_updateAdd _ _ _ h)

theorem sum_matches_eq_lookupQ (m : List (String × ℚ)) (o : String)
    (h : (m.map Prod.fst).Nodup) :
    ((m.filter (fun p => p.1 = o)).map Prod.snd).sum = lookupQ m o := by
  induction m with
  | nil => simp [lookupQ]
  | cons q t ih =>
    rw [List.map_cons, List.nodup_cons] at h
    by_cases hq : q.1 = o
    · have ht : t.filter (fun p => p.1 = o) = [] := by
        rw [List.filter_eq_nil_iff]
        intro p hp
        simp only [decide_eq_true_eq]
        intro hpo
        exact h.1 (List.mem_map.mpr ⟨p, hp, by rw [hpo, ← hq]⟩)
      rw [List.filter_cons_of_pos (by simpa using hq), ht, lookupQ_cons_of_pos hq]
      simp
    · rw [List.filter_cons_of_neg (by simpa using hq), lookupQ_cons_of_neg hq]
      exact ih h.2

/-! ## The per-bucket increments are the per-bucket bet sums -/

theorem lookupQ_bucketIncs (bets : List Bet) (k : ℤ) (o : String) :
    lookupQ (bucketIncs bets k) o =
      ((bets.filter (fun b => minuteKey b.placed_at = k ∧ b.option_id = o)).map
        (fun b => b.amount)).sum := by
  rw [bucketIncs, lookupQ_accumPairs, lookupQ_nil, zero_add, bucketPairs, List.filter_map]
  rw [List.map_map]
  have hcomp : ((fun p : String × ℚ => decide (p.1 = o)) ∘ fun b : Bet => (b.option_id, b.amount)) =
      (fun b : Bet => decide (b.option_id = o)) := by
    funext b
    simp
  rw [hcomp, List.filter_filter]
  have hpred : ∀ b ∈ bets,
      (decide (b.option_id = o) && decide (minuteKey b.placed_at = k)) =
        decide (minuteKey b.placed_at = k ∧ b.option_id = o) := by
    intro b _
    by_cases h1 : minuteKey b.placed_at = k
    · by_cases h2 : b.option_id = o
      · simp [h1, h2]
      · simp [h1, h2]
    · by_cases h2 : b.option_id = o
      · simp [h1, h2]
      · simp [h1, h2]
  rw [List.filter_congr hpred]
  rfl

theorem lookupQ_stepCum (bets : List Bet) (k : ℤ) (cum : List (String × ℚ)) (o : String) :
    lookupQ (accumPairs cum (bucketIncs bets k)) o = lookupQ cum o +
      ((bets.filter (fun b => minuteKey b.placed_at = k ∧ b.option_id = o)).map
        (fun b => b.amount)).sum := by
  have hnd : ((bucketIncs bets k).map Prod.fst).Nodup := by
    rw [bucketIncs]
    exact nodupKeys_accumPairs _ [] (by simp)
  rw [lookupQ_accumPairs, sum_matches_eq_lookupQ (bucketIncs bets k) o hnd,
    lookupQ_bucketIncs]

/-! ## Splitting a filtered bet sum along disjoint conditions -/

theorem sum_filter_or (l : List Bet) (f : Bet → ℚ) (p q : Bet → Prop)
    [DecidablePred p] [DecidablePred q] (h : ∀ b ∈ l, ¬ (p b ∧ q b)) :
    ((l.filter (fun b => p b ∨ q b)).map f).sum =
      ((l.filter (fun b => p b)).map f).sum + ((l.filter (fun b => q b)).map f).sum := by
  induction l with
  | nil => simp
  | cons b t ih =>
    have ht : ∀ x ∈ t, ¬ (p x ∧ q x) := fun x hx => h x (List.mem_cons_of_mem b hx)
    have hb := h b (List.mem_cons_self b t)
    by_cases hp : p b
    · have hq : ¬ q b := fun hq => hb ⟨hp, hq⟩
      rw [List.filter_cons_of_pos (by simpa using Or.inl hp),
        List.filter_cons_of_pos (by simpa using hp),
        List.filter_cons_of_neg (by simpa using hq)]
      simp only [List.map_cons, List.sum_cons]
      rw [ih ht]
      ring
    · by_cases hq : q b
      · rw [List.filter_cons_of_pos (by simpa using Or.inr hq),
          List.filter_cons_of_neg (by simpa using hp),
          List.filter_cons_of_pos (by simpa using hq)]
        simp only [List.map_cons, List.sum_cons]
        rw [ih ht]
        ring
      · have hpq : ¬ (p b ∨ q b) := by
          rintro (h1 | h2)
          · exact hp h1
          · exact hq h2
        rw [List.filter_cons_of_neg (by simpa using hpq),
          List.filter_cons_of_neg (by simpa using hp),
          List.filter_cons_of_neg (by simpa using hq)]
        exact ih ht

/-! ## The aggregation loop accumulates exact prefix sums -/

theorem genAux_length (bets : List Bet) (opts : List String) (pool : ℚ) (parts : ℕ)
    (ks : List ℤ) (cum : List (String × ℚ)) :
    (genOptimizedAux bets opts pool parts ks cum).length = ks.length := by
  induction ks generalizing cum with
  | nil => rfl
  | cons k t ih => simp [genOptimizedAux, ih]

theorem genAux_totalBets (bets : List Bet) (opts : List String) (pool : ℚ) (parts : ℕ)
    (ks : List ℤ) (cum : List (String × ℚ)) (i : ℕ) (o : String)
    (hnd : ks.Nodup) (h : i < ks.length) :
    lookupQ (dget (genOptimizedAux bets opts pool parts ks cum) i).totalBets o =
      lookupQ cum o +
        ((bets.filter (fun b =>
          minuteKey b.placed_at ∈ ks.take (i + 1) ∧ b.option_id = o)).map
          (fun b => b.amount)).sum := by
  induction ks generalizing cum i with
  | nil => exact absurd h (by simp)
  | cons k t ih =>
    rw [List.nodup_cons] at hnd
    cases i with
    | zero =>
      rw [genOptimizedAux]
      rw [show dget (bucketPoint (accumPairs cum (bucketIncs bets k)) opts pool parts k ::
        genOptimizedAux bets opts pool parts t (accumPairs cum (bucketIncs bets k))) 0 =
        bucketPoint (accumPairs cum (bucketIncs bets k)) opts pool parts k from rfl]
      rw [show (bucketPoint (accumPairs cum (bucketIncs bets k)) opts pool parts k).totalBets =
        accumPairs cum (bucketIncs bets k) from rfl]
      rw [lookupQ_stepCum]
      congr 1
      refine congrArg _ (congrArg _ ?_)
      refine List.filter_congr ?_
      intro b _
      have : (minuteKey b.placed_at ∈ (k :: t).take (0 + 1)) ↔ minuteKey b.placed_at = k := by
        simp
      by_cases hbk : minuteKey b.placed_at = k
      · by_cases hbo : b.option_id = o
        · simp [this, hbk, hbo]
        · simp [this, hbk, hbo]
      · by_cases hbo : b.option_id = o
        · simp [this, hbk, hbo]
        · simp [this, hbk, hbo]
    | succ i =>
      rw [genOptimizedAux]
      rw [show dget (bucketPoint (accumPairs cum (bucketIncs bets k)) opts pool parts k ::
        genOptimizedAux bets opts pool parts t (accumPairs cum (bucketIncs bets k))) (i + 1) =
        dget (genOptimizedAux bets opts pool parts t (accumPairs cum (bucketIncs bets k))) i
        from rfl]
      rw [ih _ _ hnd.2 (by simpa using h), lookupQ_stepCum]
      have hsplit : ((bets.filter (fun b =>
          minuteKey b.placed_at ∈ (k :: t).take (i + 1 + 1) ∧ b.option_id = o)).map
          (fun b => b.amount)).sum =
        ((bets.filter (fun b =>
          (minuteKey b.placed_at = k ∧ b.option_id = o) ∨
            (minuteKey b.placed_at ∈ t.take (i + 1) ∧ b.option_id = o))).map
          (fun b => b.amount)).sum := by
        refine congrArg _ (congrArg _ ?_)
        refine List.filter_congr ?_
        intro b _
        rw [decide_eq_decide]
        rw [List.take_succ_cons, List.mem_cons]
        constructor
        · rintro ⟨h1 | h1, h2⟩
          · exact Or.inl ⟨h1, h2⟩
          · exact Or.inr ⟨h1, h2⟩
        · rintro (⟨h1, h2⟩ | ⟨h1, h2⟩)
          · exact ⟨Or.inl h1, h2⟩
          · exact ⟨Or.inr h1, h2⟩
      rw [hsplit, sum_filter_or]
      · ring
      · intro b _
        rintro ⟨⟨h1, _⟩, ⟨h2, _⟩⟩
        rw [h1] at h2
        exact hnd.1 (List.take_subset _ _ h2)

/-! ## Percentage-map lemmas for the minute-bucketed aggregator -/

theorem hasKey_mkPercentages (cum : List (String × ℚ)) (t : ℚ) (o : String) :
    hasKey (mkPercentages cum t) o = hasKey cum o := by
  rw [mkPercentages, hasKey, hasKey, List.any_map]
  rfl

theorem lookupQ_mkPercentages (cum : List (String × ℚ)) (t : ℚ) (o : String)
    (h : hasKey cum o = true) :
    lookupQ (mkPercentages cum t) o =
      if 0 < t then round2 (lookupQ cum o / t * 100) else 0 := by
  induction cum with
  | nil => simp [hasKey] at h
  | cons q l ih =>
    rw [mkPercentages, List.map_cons]
    by_cases hq : q.1 = o
    · rw [lookupQ_cons_of_pos (by simpa using hq), lookupQ_cons_of_pos hq]
    · have h' : hasKey l o = true := by
        simpa [hasKey, hq] using h
      rw [lookupQ_cons_of_neg (by simpa using hq), lookupQ_cons_of_neg hq, ← mkPercentages]
      exact ih h'

theorem lookupQ_zeros (l : List String) (o : String) :
    lookupQ (l.map (fun s => (s, (0 : ℚ)))) o = 0 := by
  induction l with
  | nil => rfl
  | cons s t ih =>
    rw [List.map_cons]
    by_cases hs : s = o
    · rw [lookupQ_cons_of_pos (by simpa using hs)]
    · rw [lookupQ_cons_of_neg (by simpa using hs)]
      exact ih

theorem lookupQ_fillMissing_of_hasKey {per : List (String × ℚ)} (opts : List String)
    {o : String} (h : hasKey per o = true) :
    lookupQ (fillMissing per opts) o = lookupQ per o := by
  rw [fillMissing]
  exact lookupQ_append_left h

theorem lookupQ_fillMissing_of_not {per : List (String × ℚ)} (opts : List String)
    {o : String} (h : hasKey per o = false) :
    lookupQ (fillMissing per opts) o = 0 := by
  rw [fillMissing, lookupQ_append_right h, lookupQ_zeros]

theorem round2_zero : round2 0 = 0 := by
  rw [round2, zero_mul, round_zero]
  simp

/-- The percentage actually stored by `bucketPoint` for ANY option id: the
rounded cumulative share when the cumulative total is positive, else 0. -/
theorem lookupQ_bucketPoint (cum : List (String × ℚ)) (opts : List String)
    (pool : ℚ) (parts : ℕ) (k : ℤ) (o : String) :
    lookupQ (bucketPoint cum opts pool parts k).percentages o =
      if 0 < valuesSum cum then round2 (lookupQ cum o / valuesSum cum * 100) else 0 := by
  rw [show (bucketPoint cum opts pool parts k).percentages =
    fillMissing (mkPercentages cum (valuesSum cum)) opts from rfl]
  by_cases h : hasKey cum o = true
  · rw [lookupQ_fillMissing_of_hasKey opts (by rw [hasKey_mkPercentages]; exact h)]
    exact lookupQ_mkPercentages cum (valuesSum cum) o h
  · have h' : hasKey cum o = false := by simpa using h
    rw [lookupQ_fillMissing_of_not opts (by rw [hasKey_mkPercentages]; exact h')]
    rw [lookupQ_eq_zero_of_not_hasKey h']
    by_cases ht : 0 < valuesSum cum
    · rw [if_pos ht, zero_div, zero_mul, round2_zero]
    · rw [if_neg ht]

/-- Every element of the aggregation loop's output is a `bucketPoint` of some
accumulator state. -/
theorem mem_genOptimizedAux (bets : List Bet) (opts : List String) (pool : ℚ)
    (parts : ℕ) (ks : List ℤ) (cum : List (String × ℚ)) (dp : DataPoint)
    (h : dp ∈ genOptimizedAux bets opts pool parts ks cum) :
    ∃ c k, dp = bucketPoint c opts pool parts k := by
  induction ks generalizing cum with
  | nil => simp [genOptimizedAux] at h
  | cons k t ih =>
    rw [genOptimizedAux] at h
    rcases List.mem_cons.mp h with h1 | h1
    · exact ⟨accumPairs cum (bucketIncs bets k), k, h1⟩
    · exact ih _ h1

/-! ## Hourly rolling-window point lemmas -/

theorem rawHourlyAux_length (bets : List Bet) (opts : List String) (now : ℤ)
    (il : List ℕ) (prev : Option DataPoint) :
    (rawHourlyAux bets opts now il prev).length = il.length := by
  induction il generalizing prev with
  | nil => rfl
  | cons i t ih => simp [rawHourlyAux, ih]

theorem rawHourlyAux_dget (bets : List Bet) (opts : List String) (now : ℤ)
    (il : List ℕ) (prev : Option DataPoint) (j : ℕ) (h : j < il.length) :
    ∃ pr, dget (rawHourlyAux bets opts now il prev) j =
      hourPoint bets opts now (il.getD j 0) pr := by
  induction il generalizing prev j with
  | nil => exact absurd h (by simp)
  | cons i t ih =>
    cases j with
    | zero => exact ⟨prev, rfl⟩
    | succ j => exact ih _ j (by simpa using h)

theorem range_reverse_getD (n j : ℕ) (h : j < n) :
    ((List.range n).reverse).getD j 0 = n - 1 - j := by
  have hl : j < ((List.range n).reverse).length := by simpa using h
  rw [List.getD_eq_getElem _ _ hl, List.getElem_reverse]
  simp

theorem rawHourly_length (bets : List Bet) (opts : List String) (now : ℤ) :
    (rawHourly bets opts now).length = 24 := by
  rw [rawHourly, rawHourlyAux_length]
  simp

theorem rawHourly_dget (bets : List Bet) (opts : List String) (now : ℤ) (j : ℕ)
    (h : j < 24) :
    ∃ pr, dget (rawHourly bets opts now) j = hourPoint bets opts now (23 - j) pr := by
  obtain ⟨pr, hpr⟩ := rawHourlyAux_dget bets opts now (List.range 24).reverse none j
    (by simpa using h)
  rw [range_reverse_getD 24 j h] at hpr
  exact ⟨pr, hpr⟩

theorem hourPoint_totalPool (bets : List Bet) (opts : List String) (now : ℤ) (i : ℕ)
    (pr : Option DataPoint) :
    (hourPoint bets opts now i pr).totalPool =
      totalAmountOf (betsUpTo bets (hourEnd now i)) := by
  rw [hourPoint]
  by_cases h : (betsUpTo bets (hourEnd now i)).isEmpty
  · rw [if_pos h]
    have : betsUpTo bets (hourEnd now i) = [] := List.isEmpty_iff.mp h
    rw [show totalAmountOf (betsUpTo bets (hourEnd now i)) =
      totalAmountOf [] from by rw [this]]
    rfl
  · rw [if_neg h]

theorem lookupQ_keysMap (l : List String) (g : String → ℚ) (o : String) (h : o ∈ l) :
    lookupQ (l.map (fun s => (s, g s))) o = g o := by
  induction l with
  | nil => simp at h
  | cons s t ih =>
    rw [List.map_cons]
    by_cases hs : s = o
    · rw [lookupQ_cons_of_pos (by simpa using hs), hs]
    · rw [lookupQ_cons_of_neg (by simpa using hs)]
      exact ih (by
        rcases List.mem_cons.mp h with h1 | h1
        · exact absurd h1.symm hs
        · exact h1)

/-- The percentage stored by `hourPoint` for each known option. -/
theorem lookupQ_hourPoint (bets : List Bet) (opts : List String) (now : ℤ) (i : ℕ)
    (pr : Option DataPoint) (o : String) (h : o ∈ opts) :
    lookupQ (hourPoint bets opts now i pr).percentages o =
      (if (betsUpTo bets (hourEnd now i)).isEmpty then equalShare opts.length
       else if 0 < totalAmountOf (betsUpTo bets (hourEnd now i)) then
         lookupQ (optionTotals (betsUpTo bets (hourEnd now i))) o /
           totalAmountOf (betsUpTo bets (hourEnd now i)) * 100
       else equalShare opts.length) := by
  unfold hourPoint
  by_cases hb : (betsUpTo bets (hourEnd now i)).isEmpty
  · rw [if_pos hb, if_pos hb]
    exact lookupQ_keysMap opts (fun _ => equalShare opts.length) o h
  · rw [if_neg hb, if_neg hb]
    exact lookupQ_keysMap opts (fun s =>
      if 0 < totalAmountOf (betsUpTo bets (hourEnd now i)) then
        lookupQ (optionTotals (betsUpTo bets (hourEnd now i))) s /
          totalAmountOf (betsUpTo bets (hourEnd now i)) * 100
      else equalShare opts.length) o h

/-! ## C1: cumulative aggregation -/

/-- C1 counterexample: with a bet of 100 on A in minute 0 and a bet of 300 on
B in minute 1, the server-side edge variant reports B at 100% in the second
bucket — computed from that bucket's own increments alone — while the
cumulative running totals (as the client-side minute variant computes them)
give B 75%. -/
theorem C1_cumulative_aggregation_counterexample :
    lookupQ (dget (edgeHistoricalData
        [(⟨"e", "A", 100, 0, "u", "active"⟩ : Bet),
         (⟨"e", "B", 300, 60, "u", "active"⟩ : Bet)] 400 2) 1).percentages "B" = 100 ∧
    lookupQ (dget (generateOptimizedHistoricalData
        [(⟨"e", "A", 100, 0, "u", "active"⟩ : Bet),
         (⟨"e", "B", 300, 60, "u", "active"⟩ : Bet)] ["A", "B"] 400 2) 1).percentages "B"
      = 75 ∧
    (100 : ℚ) ≠ 75 := by
  refine ⟨?_, ?_, by norm_num⟩
  · have h1 : lookupQ (dget (edgeHistoricalData
        [(⟨"e", "A", 100, 0, "u", "active"⟩ : Bet),
         (⟨"e", "B", 300, 60, "u", "active"⟩ : Bet)] 400 2) 1).percentages "B" =
        round2 ((300 : ℚ) / valuesSum [(("B" : String), (300 : ℚ))] * 100) := rfl
    have hvs : valuesSum [(("B" : String), (300 : ℚ))] = 300 := by
      simp [valuesSum]
    rw [h1, hvs, round2, round_eq]
    norm_num
  · have h2 : lookupQ (dget (generateOptimizedHistoricalData
        [(⟨"e", "A", 100, 0, "u", "active"⟩ : Bet),
         (⟨"e", "B", 300, 60, "u", "active"⟩ : Bet)] ["A", "B"] 400 2) 1).percentages "B" =
        lookupQ (bucketPoint [("A", 100), ("B", 300)] ["A", "B"] 400 2 1).percentages "B" :=
      rfl
    rw [h2, lookupQ_bucketPoint]
    have hvs : valuesSum [(("A" : String), (100 : ℚ)), ("B", 300)] = 400 := by
      simp [valuesSum]
      norm_num
    have hlk : lookupQ [(("A" : String), (100 : ℚ)), ("B", 300)] "B" = 300 := rfl
    rw [hvs, hlk, if_pos (by norm_num : (0 : ℚ) < 400), round2, round_eq]
    norm_num

/-- C1 amended: the two client-side variants do aggregate cumulatively — in
the minute-bucketed variant the running totals carried by each DataPoint are
exactly the sums of all bets in buckets up to and including bucket `i`, and
in the hour-bucketed variant each point's pool is the total of all bets
placed up to that bucket's end — but the server-side edge variant computes
each bucket's percentages from that bucket's own increments alone (the
counterexample), so the claim holds only for the client variants. -/
theorem C1_cumulative_aggregation_amended :
    (∀ (bets : List Bet) (opts : List String) (pool : ℚ) (parts : ℕ) (i : ℕ) (o : String),
      i < (generateOptimizedHistoricalData bets opts pool parts).length →
      lookupQ (dget (generateOptimizedHistoricalData bets opts pool parts) i).totalBets o =
        ((bets.filter (fun b =>
          minuteKey b.placed_at ∈ (minuteKeys bets).take (i + 1) ∧ b.option_id = o)).map
          (fun b => b.amount)).sum) ∧
    (∀ (bets : List Bet) (opts : List String) (now : ℤ) (j : ℕ), j < 24 →
      (dget (rawHourly bets opts now) j).totalPool =
        totalAmountOf (betsUpTo bets (hourEnd now (23 - j)))) := by
  constructor
  · intro bets opts pool parts i o h
    rw [generateOptimizedHistoricalData] at h ⊢
    rw [genAux_length] at h
    rw [genAux_totalBets bets opts pool parts (minuteKeys bets) [] i o
      (((List.perm_insertionSort _ _).nodup_iff).mpr (List.nodup_dedup _)) h]
    rw [lookupQ_nil, zero_add]
  · intro bets opts now j h
    obtain ⟨pr, hpr⟩ := rawHourly_dget bets opts now j h
    rw [hpr, hourPoint_totalPool]

/-- C1 witness: a single bet of 100 on A occupies one bucket whose stored
running total for A is that prefix sum. -/
theorem C1_cumulative_aggregation_amended_witness :
    lookupQ (dget (generateOptimizedHistoricalData
        [(⟨"e", "A", 100, 0, "u", "active"⟩ : Bet)] ["A"] 100 1) 0).totalBets "A" =
      ((([(⟨"e", "A", 100, 0, "u", "active"⟩ : Bet)]).filter (fun b =>
        minuteKey b.placed_at ∈ (minuteKeys
          [(⟨"e", "A", 100, 0, "u", "active"⟩ : Bet)]).take (0 + 1) ∧
        b.option_id = "A")).map (fun b => b.amount)).sum := by
  refine C1_cumulative_aggregation_amended.1
    [(⟨"e", "A", 100, 0, "u", "active"⟩ : Bet)] ["A"] 100 1 0 "A" ?_
  rw [generateOptimizedHistoricalData, genAux_length]
  decide

/-! ## C2: the percentage formula -/

theorem lookupQ_optionTotals (l : List Bet) (o : String) :
    lookupQ (optionTotals l) o =
      ((l.filter (fun b => b.option_id = o)).map (fun b => b.amount)).sum := by
  rw [optionTotals, lookupQ_accumPairs, lookupQ_nil, zero_add, List.filter_map,
    List.map_map]
  have hcomp : ((fun p : String × ℚ => decide (p.1 = o)) ∘ fun b : Bet =>
      (b.option_id, b.amount)) = (fun b : Bet => decide (b.option_id = o)) := by
    funext b
    simp
  rw [hcomp]
  rfl

/-- C2 counterexample: (i) a single zero-amount bet makes the cumulative total
zero in the minute-bucketed variant, yet every option receives 0, not the
claimed equal split `100 / 2`; (ii) in the hour-bucketed variant, with bets of
1 on A and 2 on B the newest point carries B's share as exactly `200 / 3`,
which is NOT rounded to 2 decimal places as the claim states. -/
theorem C2_percentage_formula_counterexample :
    (valuesSum (dget (generateOptimizedHistoricalData
        [(⟨"e", "A", 0, 0, "u", "active"⟩ : Bet)] ["A", "B"] 100 1) 0).totalBets = 0 ∧
     lookupQ (dget (generateOptimizedHistoricalData
        [(⟨"e", "A", 0, 0, "u", "active"⟩ : Bet)] ["A", "B"] 100 1) 0).percentages "A" = 0 ∧
     (0 : ℚ) ≠ 100 / 2) ∧
    (lookupQ (dget (generateRealHistoricalData
        [(⟨"e", "A", 1, 10, "u", "active"⟩ : Bet),
         (⟨"e", "B", 2, 20, "u", "active"⟩ : Bet)] ["A", "B"] 100000) 23).percentages "B" =
       200 / 3 ∧
     (200 : ℚ) / 3 ≠ round2 (200 / 3)) := by
  constructor
  · have hvs : valuesSum [(("A" : String), (0 : ℚ))] = 0 := by
      simp [valuesSum]
    refine ⟨?_, ?_, by norm_num⟩
    · have h1 : (dget (generateOptimizedHistoricalData
          [(⟨"e", "A", 0, 0, "u", "active"⟩ : Bet)] ["A", "B"] 100 1) 0).totalBets =
          [(("A" : String), (0 : ℚ))] := rfl
      rw [h1, hvs]
    · have h1 : lookupQ (dget (generateOptimizedHistoricalData
          [(⟨"e", "A", 0, 0, "u", "active"⟩ : Bet)] ["A", "B"] 100 1) 0).percentages "A" =
          lookupQ (bucketPoint [("A", 0)] ["A", "B"] 100 1 0).percentages "A" := rfl
      rw [h1, lookupQ_bucketPoint, hvs]
      norm_num
  · constructor
    · have hne : generateRealHistoricalData
          [(⟨"e", "A", 1, 10, "u", "active"⟩ : Bet),
           (⟨"e", "B", 2, 20, "u", "active"⟩ : Bet)] ["A", "B"] 100000 =
          smoothDataPoints (rawHourly
            [(⟨"e", "A", 1, 10, "u", "active"⟩ : Bet),
             (⟨"e", "B", 2, 20, "u", "active"⟩ : Bet)] ["A", "B"] 100000) := rfl
      have hlast : dget (smoothDataPoints (rawHourly
          [(⟨"e", "A", 1, 10, "u", "active"⟩ : Bet),
           (⟨"e", "B", 2, 20, "u", "active"⟩ : Bet)] ["A", "B"] 100000)) 23 =
          dget (rawHourly
            [(⟨"e", "A", 1, 10, "u", "active"⟩ : Bet),
             (⟨"e", "B", 2, 20, "u", "active"⟩ : Bet)] ["A", "B"] 100000) 23 := by
        rw [dget, dget]
        have h24 : (rawHourly
            [(⟨"e", "A", 1, 10, "u", "active"⟩ : Bet),
             (⟨"e", "B", 2, 20, "u", "active"⟩ : Bet)] ["A", "B"] 100000).length = 24 :=
          rawHourly_length _ _ _
        have := smooth_getD_last (l := rawHourly
            [(⟨"e", "A", 1, 10, "u", "active"⟩ : Bet),
             (⟨"e", "B", 2, 20, "u", "active"⟩ : Bet)] ["A", "B"] 100000)
          (by rw [h24]; norm_num)
        rw [h24] at this
        exact this
      obtain ⟨pr, hpr⟩ := rawHourly_dget
        [(⟨"e", "A", 1, 10, "u", "active"⟩ : Bet),
         (⟨"e", "B", 2, 20, "u", "active"⟩ : Bet)] ["A", "B"] 100000 23 (by norm_num)
      rw [hne, hlast, hpr, lookupQ_hourPoint _ _ _ _ _ _ (by simp)]
      have hup : betsUpTo
          [(⟨"e", "A", 1, 10, "u", "active"⟩ : Bet),
           (⟨"e", "B", 2, 20, "u", "active"⟩ : Bet)] (hourEnd 100000 (23 - 23)) =
          [(⟨"e", "A", 1, 10, "u", "active"⟩ : Bet),
           (⟨"e", "B", 2, 20, "u", "active"⟩ : Bet)] := by
        decide
      rw [hup]
      have htot : totalAmountOf
          [(⟨"e", "A", 1, 10, "u", "active"⟩ : Bet),
           (⟨"e", "B", 2, 20, "u", "active"⟩ : Bet)] = 3 := by
        simp [totalAmountOf]
        norm_num
      have hopt : lookupQ (optionTotals
          [(⟨"e", "A", 1, 10, "u", "active"⟩ : Bet),
           (⟨"e", "B", 2, 20, "u", "active"⟩ : Bet)]) "B" = 2 := rfl
      rw [if_neg (by simp), htot, hopt, if_pos (by norm_num : (0 : ℚ) < 3)]
      norm_num
    · rw [round2, round_eq]
      norm_num

/-- C2 amended: in the minute-bucketed variant every option's percentage is
the cumulative share rounded to 2 decimal places when the running-total sum is
positive and 0 (not an equal split) otherwise; in the hour-bucketed variant the
percentage is the UNROUNDED share of the bets accumulated up to the bucket's
end, with the equal split `100 / optionCount` used when no bets have arrived
or the accumulated amount is not positive; and the accumulated object is
exactly the per-option bet sum. -/
theorem C2_percentage_formula_amended :
    (∀ (bets : List Bet) (opts : List String) (pool : ℚ) (parts : ℕ),
      ∀ dp ∈ generateOptimizedHistoricalData bets opts pool parts, ∀ o : String,
        lookupQ dp.percentages o =
          if 0 < valuesSum dp.totalBets then
            round2 (lookupQ dp.totalBets o / valuesSum dp.totalBets * 100)
          else 0) ∧
    (∀ (bets : List Bet) (opts : List String) (now : ℤ) (j : ℕ), j < 24 → ∀ o ∈ opts,
      lookupQ (dget (rawHourly bets opts now) j).percentages o =
        (if (betsUpTo bets (hourEnd now (23 - j))).isEmpty then equalShare opts.length
         else if 0 < totalAmountOf (betsUpTo bets (hourEnd now (23 - j))) then
           lookupQ (optionTotals (betsUpTo bets (hourEnd now (23 - j)))) o /
             totalAmountOf (betsUpTo bets (hourEnd now (23 - j))) * 100
         else equalShare opts.length)) ∧
    (∀ (l : List Bet) (o : String),
      lookupQ (optionTotals l) o =
        ((l.filter (fun b => b.option_id = o)).map (fun b => b.amount)).sum) := by
  refine ⟨?_, ?_, lookupQ_optionTotals⟩
  · intro bets opts pool parts dp hdp o
    obtain ⟨c, k, rfl⟩ := mem_genOptimizedAux bets opts pool parts (minuteKeys bets) [] dp hdp
    rw [show (bucketPoint c opts pool parts k).totalBets = c from rfl]
    exact lookupQ_bucketPoint c opts pool parts k o
  · intro bets opts now j hj o ho
    obtain ⟨pr, hpr⟩ := rawHourly_dget bets opts now j hj
    rw [hpr]
    exact lookupQ_hourPoint bets opts now (23 - j) pr o ho

/-- C2 witness: one bet of 100 on A; the newest rolling-window point gives A
the full (unrounded) share. -/
theorem C2_percentage_formula_amended_witness :
    lookupQ (dget (rawHourly [(⟨"e", "A", 100, 0, "u", "active"⟩ : Bet)] ["A"] 7200) 23).percentages
        "A" =
      (if (betsUpTo [(⟨"e", "A", 100, 0, "u", "active"⟩ : Bet)]
          (hourEnd 7200 (23 - 23))).isEmpty then equalShare (["A"] : List String).length
       else if 0 < totalAmountOf (betsUpTo [(⟨"e", "A", 100, 0, "u", "active"⟩ : Bet)]
          (hourEnd 7200 (23 - 23))) then
         lookupQ (optionTotals (betsUpTo [(⟨"e", "A", 100, 0, "u", "active"⟩ : Bet)]
            (hourEnd 7200 (23 - 23)))) "A" /
           totalAmountOf (betsUpTo [(⟨"e", "A", 100, 0, "u", "active"⟩ : Bet)]
            (hourEnd 7200 (23 - 23))) * 100
       else equalShare (["A"] : List String).length) :=
  C2_percentage_formula_amended.2.1 [(⟨"e", "A", 100, 0, "u", "active"⟩ : Bet)] ["A"] 7200 23
    (by norm_num) "A" (by simp)

/-! ## C3: the percentage-sum invariant -/

theorem round2_err (x : ℚ) : |round2 x - x| ≤ 1 / 200 := by
  rw [round2]
  have h := abs_sub_round (x * 100)
  have h2 : (round (x * 100) : ℚ) / 100 - x = ((round (x * 100) : ℚ) - x * 100) / 100 := by
    ring
  rw [h2, abs_div, abs_of_pos (by norm_num : (0 : ℚ) < 100)]
  rw [div_le_div_iff₀ (by norm_num) (by norm_num)]
  nlinarith [abs_sub_comm ((round (x * 100) : ℚ)) (x * 100)]

theorem sum_round2_err (c : List (String × ℚ)) (f : String × ℚ → ℚ) :
    |(c.map (fun p => round2 (f p))).sum - (c.map f).sum| ≤ c.length * (1 / 200) := by
  induction c with
  | nil => simp
  | cons p t ih =>
    simp only [List.map_cons, List.sum_cons, List.length_cons]
    have h1 : round2 (f p) + (t.map (fun p => round2 (f p))).sum -
        (f p + (t.map f).sum) =
        (round2 (f p) - f p) + ((t.map (fun p => round2 (f p))).sum - (t.map f).sum) := by
      ring
    rw [h1]
    calc |(round2 (f p) - f p) + ((t.map (fun p => round2 (f p))).sum - (t.map f).sum)|
        ≤ |round2 (f p) - f p| + |(t.map (fun p => round2 (f p))).sum - (t.map f).sum| :=
          abs_add _ _
      _ ≤ 1 / 200 + t.length * (1 / 200) := add_le_add (round2_err (f p)) ih
      _ = (t.length + 1) * (1 / 200) := by ring
      _ = ((t.length + 1 : ℕ) : ℚ) * (1 / 200) := by push_cast; ring

theorem sum_div_mul (c : List (String × ℚ)) (t : ℚ) :
    (c.map (fun p => p.2 / t * 100)).sum = valuesSum c / t * 100 := by
  induction c with
  | nil => simp [valuesSum]
  | cons p l ih =>
    simp only [List.map_cons, List.sum_cons, valuesSum] at ih ⊢
    rw [ih]
    ring

theorem sum_shares (c : List (String × ℚ)) (t : ℚ) (h : t = valuesSum c) (ht : t ≠ 0) :
    (c.map (fun p => p.2 / t * 100)).sum = 100 := by
  rw [sum_div_mul, ← h, div_self ht]
  norm_num

theorem valuesSum_zeros (l : List String) :
    valuesSum (l.map (fun s => (s, (0 : ℚ)))) = 0 := by
  induction l with
  | nil => rfl
  | cons s t ih =>
    simp only [List.map_cons, valuesSum, List.sum_cons] at ih ⊢
    rw [ih]
    ring

theorem valuesSum_fillMissing (per : List (String × ℚ)) (opts : List String) :
    valuesSum (fillMissing per opts) = valuesSum per := by
  rw [fillMissing, valuesSum, List.map_append, List.sum_append, ← valuesSum, ← valuesSum,
    valuesSum_zeros, add_zero]

/-- C3 counterexample: a single zero-amount bet while the store's pool is 100
yields a DataPoint with `totalPool = 100 > 0` whose percentages sum to 0 —
off from 100 by far more than 0.1. -/
theorem C3_percentage_sum_counterexample :
    (dget (generateOptimizedHistoricalData
        [(⟨"e", "A", 0, 0, "u", "active"⟩ : Bet)] ["A"] 100 1) 0).totalPool = 100 ∧
    valuesSum (dget (generateOptimizedHistoricalData
        [(⟨"e", "A", 0, 0, "u", "active"⟩ : Bet)] ["A"] 100 1) 0).percentages = 0 ∧
    ¬ |valuesSum (dget (generateOptimizedHistoricalData
        [(⟨"e", "A", 0, 0, "u", "active"⟩ : Bet)] ["A"] 100 1) 0).percentages - 100| ≤
      1 / 10 := by
  have hvs : valuesSum [(("A" : String), (0 : ℚ))] = 0 := by
    simp [valuesSum]
  have hsum : valuesSum (dget (generateOptimizedHistoricalData
      [(⟨"e", "A", 0, 0, "u", "active"⟩ : Bet)] ["A"] 100 1) 0).percentages = 0 := by
    have h1 : (dget (generateOptimizedHistoricalData
        [(⟨"e", "A", 0, 0, "u", "active"⟩ : Bet)] ["A"] 100 1) 0).percentages =
        fillMissing (mkPercentages [("A", 0)] (valuesSum [(("A" : String), (0 : ℚ))])) ["A"] :=
      rfl
    rw [h1, valuesSum_fillMissing, hvs]
    have h2 : mkPercentages [("A", 0)] 0 = [("A", 0)] := by
      rw [mkPercentages]
      norm_num
    rw [h2, hvs]
  refine ⟨?_, hsum, ?_⟩
  · have h1 : (dget (generateOptimizedHistoricalData
        [(⟨"e", "A", 0, 0, "u", "active"⟩ : Bet)] ["A"] 100 1) 0).totalPool =
        if (100 : ℚ) = 0 then valuesSum [(("A" : String), (0 : ℚ))] else 100 := rfl
    rw [h1, if_neg (by norm_num : ¬ (100 : ℚ) = 0)]
  · rw [hsum]
    rw [show (0 : ℚ) - 100 = -100 by norm_num, abs_neg,
      abs_of_nonneg (by norm_num : (0 : ℚ) ≤ 100)]
    norm_num

/-- The percentages stored by the edge function's bucket at index `i` are
those of the bucket keyed by the `i`-th sorted minute. -/
theorem edge_percentages_dget (bets : List Bet) (pool : ℚ) (parts : ℕ) (i : ℕ)
    (h : i < (minuteKeys bets).length) :
    (dget (edgeHistoricalData bets pool parts) i).percentages =
      edgeBucketPercentages bets ((minuteKeys bets).getD i 0) := by
  rw [dget, edgeHistoricalData]
  have hl : i < ((minuteKeys bets).map (fun k =>
      ({ timestamp := k * 60
         percentages := edgeBucketPercentages bets k
         totalPool := pool
         participantCount := parts
         totalBets := []
         bettingVelocity := 0
         momentum := [] } : DataPoint))).length := by
    simpa using h
  rw [List.getD_eq_getElem _ _ hl, List.getElem_map, List.getD_eq_getElem _ _ h]

/-- Percentage-sum bound for one edge-function bucket with positive own
total. -/
theorem edge_sum_bound (bets : List Bet) (k : ℤ)
    (h : 0 < valuesSum (bucketIncs bets k)) :
    |valuesSum (edgeBucketPercentages bets k) - 100| ≤
      (bucketIncs bets k).length * (1 / 200) := by
  rw [show edgeBucketPercentages bets k = (bucketIncs bets k).map (fun p =>
    (p.1, round2 (p.2 / valuesSum (bucketIncs bets k) * 100))) from rfl]
  have hvm : valuesSum ((bucketIncs bets k).map (fun p =>
      (p.1, round2 (p.2 / valuesSum (bucketIncs bets k) * 100)))) =
      ((bucketIncs bets k).map (fun p =>
        round2 (p.2 / valuesSum (bucketIncs bets k) * 100))).sum := by
    rw [valuesSum, List.map_map]
    rfl
  rw [hvm]
  have h100 : ((bucketIncs bets k).map (fun p =>
      p.2 / valuesSum (bucketIncs bets k) * 100)).sum = 100 :=
    sum_shares (bucketIncs bets k) (valuesSum (bucketIncs bets k)) rfl (ne_of_gt h)
  calc |((bucketIncs bets k).map (fun p =>
        round2 (p.2 / valuesSum (bucketIncs bets k) * 100))).sum - 100|
      = |((bucketIncs bets k).map (fun p =>
            round2 (p.2 / valuesSum (bucketIncs bets k) * 100))).sum -
          ((bucketIncs bets k).map (fun p =>
            p.2 / valuesSum (bucketIncs bets k) * 100)).sum| := by rw [h100]
    _ ≤ (bucketIncs bets k).length * (1 / 200) :=
        sum_round2_err (bucketIncs bets k)
          (fun p => p.2 / valuesSum (bucketIncs bets k) * 100)

/-- C3 amended: in the minute-bucketed variant, for every DataPoint whose
cumulative running-total sum is positive (rather than whose stored
`totalPool` is positive), the percentage sum differs from 100 by at most
0.005 per tracked option — within 0.1 whenever at most 20 options have
received bets; and in the serve-handler (edge) variant, every bucket whose
own per-bucket total is positive satisfies the same bound over the options
bet on in that bucket. -/
theorem C3_percentage_sum_amended :
    (∀ (bets : List Bet) (opts : List String) (pool : ℚ) (parts : ℕ),
      ∀ dp ∈ generateOptimizedHistoricalData bets opts pool parts,
        0 < valuesSum dp.totalBets →
        |valuesSum dp.percentages - 100| ≤ dp.totalBets.length * (1 / 200)) ∧
    (∀ (bets : List Bet) (pool : ℚ) (parts : ℕ) (i : ℕ),
      i < (edgeHistoricalData bets pool parts).length →
      0 < valuesSum (bucketIncs bets ((minuteKeys bets).getD i 0)) →
      |valuesSum (dget (edgeHistoricalData bets pool parts) i).percentages - 100| ≤
        (bucketIncs bets ((minuteKeys bets).getD i 0)).length * (1 / 200)) := by
  constructor
  · intro bets opts pool parts dp hdp htot
    obtain ⟨c, k, rfl⟩ := mem_genOptimizedAux bets opts pool parts (minuteKeys bets) [] dp hdp
    rw [show (bucketPoint c opts pool parts k).totalBets = c from rfl] at htot ⊢
    have hper : (bucketPoint c opts pool parts k).percentages =
        fillMissing (mkPercentages c (valuesSum c)) opts := rfl
    rw [hper, valuesSum_fillMissing]
    have hmk : mkPercentages c (valuesSum c) =
        c.map (fun p => (p.1, round2 (p.2 / valuesSum c * 100))) := by
      rw [mkPercentages]
      refine List.map_congr_left ?_
      intro p _
      rw [if_pos htot]
    rw [hmk]
    have hvm : valuesSum (c.map (fun p => (p.1, round2 (p.2 / valuesSum c * 100)))) =
        (c.map (fun p => round2 (p.2 / valuesSum c * 100))).sum := by
      rw [valuesSum, List.map_map]
      rfl
    rw [hvm]
    have h100 : (c.map (fun p => p.2 / valuesSum c * 100)).sum = 100 :=
      sum_shares c (valuesSum c) rfl (ne_of_gt htot)
    calc |(c.map (fun p => round2 (p.2 / valuesSum c * 100))).sum - 100|
        = |(c.map (fun p => round2 (p.2 / valuesSum c * 100))).sum -
            (c.map (fun p => p.2 / valuesSum c * 100)).sum| := by rw [h100]
      _ ≤ c.length * (1 / 200) := sum_round2_err c (fun p => p.2 / valuesSum c * 100)
  · intro bets pool parts i hi htot
    have hi' : i < (minuteKeys bets).length := by
      rw [edgeHistoricalData, List.length_map] at hi
      exact hi
    rw [edge_percentages_dget bets pool parts i hi']
    exact edge_sum_bound bets ((minuteKeys bets).getD i 0) htot

/-- C3 witness: a single bet of 100 on A gives a one-entry cumulative object
whose percentage sum is within the bound, in the minute-bucketed series and
in the edge-function series alike. -/
theorem C3_percentage_sum_amended_witness :
    (|valuesSum (dget (generateOptimizedHistoricalData
        [(⟨"e", "A", 100, 0, "u", "active"⟩ : Bet)] ["A"] 100 1) 0).percentages - 100| ≤
      (dget (generateOptimizedHistoricalData
        [(⟨"e", "A", 100, 0, "u", "active"⟩ : Bet)] ["A"] 100 1) 0).totalBets.length *
        (1 / 200)) ∧
    (|valuesSum (dget (edgeHistoricalData
        [(⟨"e", "A", 100, 0, "u", "active"⟩ : Bet)] 100 1) 0).percentages - 100| ≤
      (bucketIncs [(⟨"e", "A", 100, 0, "u", "active"⟩ : Bet)]
        ((minuteKeys [(⟨"e", "A", 100, 0, "u", "active"⟩ : Bet)]).getD 0 0)).length *
        (1 / 200)) := by
  constructor
  · refine C3_percentage_sum_amended.1
      [(⟨"e", "A", 100, 0, "u", "active"⟩ : Bet)] ["A"] 100 1
      (dget (generateOptimizedHistoricalData
        [(⟨"e", "A", 100, 0, "u", "active"⟩ : Bet)] ["A"] 100 1) 0) ?_ ?_
    · have h1 : generateOptimizedHistoricalData
          [(⟨"e", "A", 100, 0, "u", "active"⟩ : Bet)] ["A"] 100 1 =
          [bucketPoint [("A", 100)] ["A"] 100 1 0] := rfl
      rw [h1]
      exact List.mem_singleton.mpr rfl
    · have h2 : (dget (generateOptimizedHistoricalData
          [(⟨"e", "A", 100, 0, "u", "active"⟩ : Bet)] ["A"] 100 1) 0).totalBets =
          [(("A" : String), (100 : ℚ))] := rfl
      rw [h2]
      simp [valuesSum]
  · refine C3_percentage_sum_amended.2
      [(⟨"e", "A", 100, 0, "u", "active"⟩ : Bet)] 100 1 0 ?_ ?_
    · rw [show (edgeHistoricalData
        [(⟨"e", "A", 100, 0, "u", "active"⟩ : Bet)] 100 1).length = 1 from rfl]
      norm_num
    · have h3 : bucketIncs [(⟨"e", "A", 100, 0, "u", "active"⟩ : Bet)]
          ((minuteKeys [(⟨"e", "A", 100, 0, "u", "active"⟩ : Bet)]).getD 0 0) =
          [(("A" : String), (100 : ℚ))] := rfl
      rw [h3]
      simp [valuesSum]

/-! ## C8: NotFound / DataIntegrity conditions -/

/-- C8 counterexample: for an existing event with EMPTY option metadata the
minute-bucketed `getEventAnalytics` does not fail — it returns a computed
result whose insights are the `No options available` placeholders. -/
theorem C8_error_conditions_counterexample :
    getEventAnalyticsMinute ⟨[⟨"E", 100, 2⟩], [], []⟩ "E" =
      .ok ⟨⟨"E", 100, 2⟩, [], [], 100,
        ⟨"No options available", .Low, .Stable, 0, 0, 0, "No options available", none⟩⟩ ∧
    findEvent ⟨[⟨"E", 100, 2⟩], [], []⟩ "E" = some ⟨"E", 100, 2⟩ ∧
    optionsFor ⟨[⟨"E", 100, 2⟩], [], []⟩ "E" = [] :=
  ⟨rfl, rfl, rfl⟩

/-- C8 amended: an unknown event id fails with `NotFound` in BOTH variants,
and for an existing event with empty option metadata the hour-bucketed
variant fails with `DataIntegrity` — but the minute-bucketed variant instead
returns a computed result with placeholder insights. -/
theorem C8_error_conditions_amended (s : Store) (eventId : String) (now : ℤ) :
    (findEvent s eventId = none →
      getEventAnalyticsMinute s eventId = .error .NotFound ∧
      getEventAnalyticsHour s eventId now = .error .NotFound) ∧
    (∀ ev, findEvent s eventId = some ev → optionsFor s eventId = [] →
      getEventAnalyticsHour s eventId now = .error .DataIntegrity ∧
      ∃ r, getEventAnalyticsMinute s eventId = .ok r ∧
        r.insights.leadingOption = "No options available") := by
  constructor
  · intro h
    constructor
    · simp only [getEventAnalyticsMinute, h]
    · simp only [getEventAnalyticsHour, h]
  · intro ev hev hopts
    constructor
    · simp only [getEventAnalyticsHour, hev, hopts]
      rfl
    · have hlbl : optionsByLabel s eventId = [] := by
        rw [optionsByLabel, show s.options.filter (fun o => o.event_id = eventId) =
          optionsFor s eventId from rfl, hopts]
        rfl
      simp only [getEventAnalyticsMinute, hev, hlbl]
      exact ⟨_, rfl, rfl⟩

/-- C8 witness: an empty store knows no event, so the minute variant reports
`NotFound`. -/
theorem C8_error_conditions_amended_witness :
    getEventAnalyticsMinute ⟨[], [], []⟩ "X" = .error .NotFound :=
  ((C8_error_conditions_amended ⟨[], [], []⟩ "X" 0).1 rfl).1

/-! ## C9: determinism of the analytics computation -/

theorem betsFilter_and (l : List Bet) (eid : String) :
    l.filter (fun b => b.event_id = eid ∧ b.status = "active") =
      (l.filter (fun b => b.event_id = eid)).filter (fun b => b.status = "active") := by
  induction l with
  | nil => rfl
  | cons b t ih =>
    by_cases h1 : b.event_id = eid
    · by_cases h2 : b.status = "active"
      · rw [List.filter_cons_of_pos (by simp [h1, h2]),
          List.filter_cons_of_pos (by simpa using h1),
          List.filter_cons_of_pos (by simpa using h2), ih]
      · rw [List.filter_cons_of_neg (by simp [h1, h2]),
          List.filter_cons_of_pos (by simpa using h1),
          List.filter_cons_of_neg (by simpa using h2), ih]
    · rw [List.filter_cons_of_neg (by simp [h1]),
        List.filter_cons_of_neg (by simpa using h1), ih]

/-- C9 counterexample: the fallback generator invoked when the ledger read
fails is driven by the random stream — two runs over the SAME options and the
same `now`, differing only in the `Math.random` draws, produce different
historical series.  The aggregation code therefore does contain a source of
randomness. -/
theorem C9_determinism_counterexample :
    generateFallbackHistoricalData (fun _ => 0) (fun _ => 0)
        [(⟨"A", "e", "A", 100, 0⟩ : OptionRow)] 0 ≠
      generateFallbackHistoricalData (fun _ => 0) (fun _ => 1 / 2)
        [(⟨"A", "e", "A", 100, 0⟩ : OptionRow)] 0 := by
  intro h
  have h0 := congrArg (fun l => (dget l 0).bettingVelocity) h
  have e1 : (dget (generateFallbackHistoricalData (fun _ => 0) (fun _ => 0)
      [(⟨"A", "e", "A", 100, 0⟩ : OptionRow)] 0) 0).bettingVelocity =
      (⌊(0 : ℚ) * 5⌋ : ℚ) + 1 := by
    rw [dget, generateFallbackHistoricalData, getD_range_map _ _ _ (by norm_num)]
    rfl
  have e2 : (dget (generateFallbackHistoricalData (fun _ => 0) (fun _ => 1 / 2)
      [(⟨"A", "e", "A", 100, 0⟩ : OptionRow)] 0) 0).bettingVelocity =
      (⌊(1 / 2 : ℚ) * 5⌋ : ℚ) + 1 := by
    rw [dget, generateFallbackHistoricalData, getD_range_map _ _ _ (by norm_num)]
    rfl
  rw [show (fun l => (dget l 0).bettingVelocity) (generateFallbackHistoricalData
      (fun _ => 0) (fun _ => 0) [(⟨"A", "e", "A", 100, 0⟩ : OptionRow)] 0) =
      (dget (generateFallbackHistoricalData (fun _ => 0) (fun _ => 0)
        [(⟨"A", "e", "A", 100, 0⟩ : OptionRow)] 0) 0).bettingVelocity from rfl,
    show (fun l => (dget l 0).bettingVelocity) (generateFallbackHistoricalData
      (fun _ => 0) (fun _ => 1 / 2) [(⟨"A", "e", "A", 100, 0⟩ : OptionRow)] 0) =
      (dget (generateFallbackHistoricalData (fun _ => 0) (fun _ => 1 / 2)
        [(⟨"A", "e", "A", 100, 0⟩ : OptionRow)] 0) 0).bettingVelocity from rfl,
    e1, e2] at h0
  norm_num at h0

/-- C9 amended: the SUCCESS path is deterministic — the output of both
variants is a function of the event row, the event's bets and the event's
options alone, so two runs against an unchanged snapshot agree — but the
fallback path taken on a read failure consumes a random stream (the
counterexample), and the minute-bucketed aggregation loop does issue an
external store read per bucket (reproducible only because the snapshot is
fixed). -/
theorem C9_determinism_amended (s1 s2 : Store) (eventId : String) (now : ℤ)
    (hev : findEvent s1 eventId = findEvent s2 eventId)
    (hbets : s1.bets.filter (fun b => b.event_id = eventId) =
      s2.bets.filter (fun b => b.event_id = eventId))
    (hopts : s1.options.filter (fun o => o.event_id = eventId) =
      s2.options.filter (fun o => o.event_id = eventId)) :
    getEventAnalyticsMinute s1 eventId = getEventAnalyticsMinute s2 eventId ∧
    getEventAnalyticsHour s1 eventId now = getEventAnalyticsHour s2 eventId now := by
  have hb : betsFor s1 eventId = betsFor s2 eventId := by
    rw [betsFor, betsFor, hbets]
  have hab : activeBetsFor s1 eventId = activeBetsFor s2 eventId := by
    rw [activeBetsFor, activeBetsFor, betsFilter_and, betsFilter_and, hbets]
  have hol : optionsByLabel s1 eventId = optionsByLabel s2 eventId := by
    rw [optionsByLabel, optionsByLabel, hopts]
  have hof : optionsFor s1 eventId = optionsFor s2 eventId := by
    rw [optionsFor, optionsFor, hopts]
  constructor
  · rw [getEventAnalyticsMinute, getEventAnalyticsMinute, hb, hev, hol]
  · rw [getEventAnalyticsHour, getEventAnalyticsHour, hev, hof, hab]

/-- C9 witness: two stores that agree on event `E`'s rows (one holds an extra
unrelated event) produce identical minute-variant analytics for `E`. -/
theorem C9_determinism_amended_witness :
    getEventAnalyticsMinute ⟨[⟨"E", 100, 2⟩, ⟨"F", 1, 1⟩], [], []⟩ "E" =
      getEventAnalyticsMinute ⟨[⟨"E", 100, 2⟩], [], []⟩ "E" :=
  (C9_determinism_amended ⟨[⟨"E", 100, 2⟩, ⟨"F", 1, 1⟩], [], []⟩
    ⟨[⟨"E", 100, 2⟩], [], []⟩ "E" 0 rfl rfl rfl).1

end BlackRoom
